import Mathlib

/-!
# lwmqtt packet codec (`src/packet.c`)

A shallow embedding of the MQTT packet codec and the properties proved about it.

Conventions of the embedding.

* A buffer is a `List Nat` holding one byte per cell; the C pointer `buf` is offset `0`
  of that list and every other pointer is an offset into it.  An access outside the
  list is undefined behaviour in C and is the result `none` here.
* C `int` values are `Nat` where the source only ever holds a length or a count and
  `Int` where a value can be negative (`buf_len`, decode cursors, return codes).
  The sums are exact here, while the source computes them in a 32-bit `int`: the
  remaining length of the encoders and the sum
  `lwmqtt_total_header_length(rem_len) + rem_len` of their capacity check agree with
  the source as long as that sum is at most 2147483647, and beyond it the source
  overflows a signed `int`, which is undefined behaviour in C.  The auxiliary lemmas
  are statements about the exact sums; every theorem labelled C1 to C20 that is
  about `lwmqtt_encode_connect` or `lwmqtt_encode_publish` keeps that sum in the
  range of `int` by a hypothesis: a bound on the lengths, a bound on the remaining
  length, or the bound on the sum itself.  A CONNECT request that satisfies the data
  model (string and will payload lengths at most 65535) is always in that range.
* `do { ... } while (c)` loops are recursive functions on a fuel argument; the entry
  points pass a fuel that the loop cannot exhaust.
* Bit-fields are allocated from the least significant bit in declaration order, the
  allocation under which `lwmqtt_connect_flags_t` of `packet.c` has the MQTT layout.
* `packet.h` and `helpers.h` are not part of the sources at hand.  The integer value
  of the enumerator `LWMQTT_REMAINING_LENGTH_OVERFLOW` is therefore a parameter
  (`ovf`) of every function whose source compares or adds that value.
-/

namespace Lwmqtt

/-! ## Memory -/

/-- Write one cell: `*ptr = v`. -/
def store (mem : List Nat) (ptr : Nat) (v : Nat) : Option (List Nat) :=
  if ptr < mem.length then some (mem.set ptr v) else none

/-- Read one cell: `*ptr`. -/
def load (mem : List Nat) (ptr : Int) : Option Nat :=
  if 0 ≤ ptr then mem[ptr.toNat]? else none

/-- The libc `memcpy(ptr, src, src_len)` into the buffer, with the source given by value. -/
def memcpy (mem : List Nat) (ptr : Nat) : List Nat → Option (List Nat)
  | [] => some mem
  | b :: bs =>
    match store mem ptr b with
    | none => none
    | some mem1 => memcpy mem1 (ptr + 1) bs

/-- The cells `[off, off + len)` of a buffer: what a borrowed `(pointer, length)` view denotes. -/
def slice (mem : List Nat) (off len : Nat) : List Nat :=
  (mem.drop off).take len

/-! ## Bit-fields -/

/-- The byte of a union of `unsigned char byte` with a struct of bit-fields, given as
`(width, value)` pairs in declaration order; a value is truncated to its width. -/
def bitfield_pack : List (Nat × Nat) → Nat
  | [] => 0
  | (w, v) :: rest => v % 2 ^ w + 2 ^ w * bitfield_pack rest

/-- The bit-field of width `w` that starts at bit `o` of the byte `b`. -/
def bitfield_get (b o w : Nat) : Nat :=
  (b / 2 ^ o) % 2 ^ w

/-! ## Declarations of `packet.h` -/

/-- Modelled from the spec: the error kinds of `lwmqtt_err_t` (section 7), declared in
`packet.h`, which is not among the sources. -/
inductive lwmqtt_err_t
  | LWMQTT_SUCCESS
  | LWMQTT_FAILURE
  | LWMQTT_BUFFER_TOO_SHORT_ERROR
  | LWMQTT_REMAINING_LENGTH_OVERFLOW
  | LWMQTT_LENGTH_MISMATCH
deriving DecidableEq, Repr

open lwmqtt_err_t

/-- Modelled from the spec: the packet type code of CONNECT in `lwmqtt_packet_t`
(`packet.h`, not among the sources); the MQTT 3.1.1 type codes are 1..14. -/
def LWMQTT_CONNECT_PACKET : Nat := 1

/-- Modelled from the spec: the packet type code of CONNACK (`packet.h`). -/
def LWMQTT_CONNACK_PACKET : Nat := 2

/-- Modelled from the spec: the packet type code of PUBLISH (`packet.h`). -/
def LWMQTT_PUBLISH_PACKET : Nat := 3

/-- Modelled from the spec: the packet type code of PUBREL (`packet.h`). -/
def LWMQTT_PUBREL_PACKET : Nat := 6

/-- Modelled from the spec: the union `lwmqtt_header_t` of `packet.h` (not among the
sources); section 3 fixes bits 7-4 = type, bit 3 = dup, bits 2-1 = qos, bit 0 = retain. -/
structure lwmqtt_header_t where
  retain : Nat
  qos : Nat
  dup : Nat
  type : Nat
deriving DecidableEq, Repr

/-- The member `byte` of `lwmqtt_header_t`. -/
def lwmqtt_header_t.byte (h : lwmqtt_header_t) : Nat :=
  bitfield_pack [(1, h.retain), (2, h.qos), (1, h.dup), (4, h.type)]

/-- The bit-fields of `lwmqtt_header_t` after `header.byte = b`. -/
def lwmqtt_header_t.of_byte (b : Nat) : lwmqtt_header_t :=
  { retain := bitfield_get b 0 1, qos := bitfield_get b 1 2,
    dup := bitfield_get b 3 1, type := bitfield_get b 4 4 }

/-- Modelled from the spec: `lwmqtt_string_t` of `packet.h` (not among the sources), the
WireString of section 3: a NUL-terminated byte sequence, a (pointer, length) pair, or
neither (both pointers `NULL`).  The lists are the bytes the pointers point to. -/
inductive lwmqtt_string_t
  | null
  | c_string (s : List Nat)
  | lp_string (data : List Nat)
deriving DecidableEq, Repr

/-- The test `str.c_string` (pointer not `NULL`) of the source. -/
def lwmqtt_string_t.has_c_string : lwmqtt_string_t → Bool
  | .c_string _ => true
  | _ => false

/-- The test `str.lp_string.data` (pointer not `NULL`) of the source. -/
def lwmqtt_string_t.has_lp_data : lwmqtt_string_t → Bool
  | .lp_string _ => true
  | _ => false

/-- The content bytes of a string: up to the terminating NUL for a C string. -/
def lwmqtt_string_t.content : lwmqtt_string_t → List Nat
  | .null => []
  | .c_string s => s.takeWhile (fun b => b != 0)
  | .lp_string data => data

/-- A string as a decoder returns it: a view `(data, len)` into the receive buffer,
`data` being an offset from `buf`. -/
structure lwmqtt_lp_string_t where
  len : Int
  data : Int
deriving DecidableEq, Repr

/-- Modelled from the spec: `lwmqtt_options_t` of `packet.h` (not among the sources), the
ConnectOptions of section 3. -/
structure lwmqtt_options_t where
  client_id : lwmqtt_string_t
  keep_alive : Nat
  clean_session : Bool
  username : lwmqtt_string_t
  password : lwmqtt_string_t
deriving DecidableEq, Repr

/-- Modelled from the spec: `lwmqtt_will_t` of `packet.h` (not among the sources), the
Will of section 3; `payload_len` is the length of `payload`. -/
structure lwmqtt_will_t where
  topic : lwmqtt_string_t
  payload : List Nat
  qos : Nat
  retained : Bool
deriving DecidableEq, Repr

/-! ## Helpers of `helpers.h` -/

/-- Modelled from the spec: `lwmqtt_strlen` of `helpers.c` (not among the sources);
section 4.1 `string_length`: the content byte length without the prefix, whichever
representation is used. -/
def lwmqtt_strlen (str : lwmqtt_string_t) : Nat :=
  str.content.length

/-- Modelled from the spec: `lwmqtt_write_char` of `helpers.c` (not among the sources);
section 4.1 `write_byte`: an unconditional single-byte move that advances the cursor by
one.  The argument is converted to `unsigned char`. -/
def lwmqtt_write_char (mem : List Nat) (ptr : Nat) (chr : Nat) : Option (List Nat × Nat) :=
  match store mem ptr (chr % 256) with
  | none => none
  | some mem1 => some (mem1, ptr + 1)

/-- Modelled from the spec: `lwmqtt_read_char` of `helpers.c` (not among the sources);
section 4.1 `read_byte`. -/
def lwmqtt_read_char (mem : List Nat) (ptr : Int) : Option (Nat × Int) :=
  match load mem ptr with
  | none => none
  | some c => some (c, ptr + 1)

/-- Modelled from the spec: `lwmqtt_write_int` of `helpers.c` (not among the sources);
section 4.1 `write_u16_be`: two bytes, most significant first. -/
def lwmqtt_write_int (mem : List Nat) (ptr : Nat) (num : Nat) : Option (List Nat × Nat) :=
  match lwmqtt_write_char mem ptr (num / 256) with
  | none => none
  | some (mem1, ptr1) => lwmqtt_write_char mem1 ptr1 (num % 256)

/-- Modelled from the spec: `lwmqtt_read_int` of `helpers.c` (not among the sources);
section 4.1 `read_u16_be`: two bytes, most significant first. -/
def lwmqtt_read_int (mem : List Nat) (ptr : Int) : Option (Nat × Int) :=
  match lwmqtt_read_char mem ptr with
  | none => none
  | some (hi, ptr1) =>
    match lwmqtt_read_char mem ptr1 with
    | none => none
    | some (lo, ptr2) => some (256 * hi + lo, ptr2)

/-- Modelled from the spec: `lwmqtt_write_c_string` of `helpers.c` (not among the
sources).  Section 3 gives a wire string the encoded length `len(content) + 2`, a 2-byte
big-endian length then the bytes, and section 4.4 counts 10 bytes for protocol name,
version, flags and keep-alive, which leaves 6 for the name "MQTT". -/
def lwmqtt_write_c_string (mem : List Nat) (ptr : Nat) (s : List Nat) :
    Option (List Nat × Nat) :=
  match lwmqtt_write_int mem ptr s.length with
  | none => none
  | some (mem1, ptr1) =>
    match memcpy mem1 ptr1 s with
    | none => none
    | some mem2 => some (mem2, ptr1 + s.length)

/-- Modelled from the spec: `lwmqtt_write_string` of `helpers.c` (not among the
sources); section 4.1 `write_wire_string`: the 2-byte big-endian length prefix followed
by the raw bytes. -/
def lwmqtt_write_string (mem : List Nat) (ptr : Nat) (str : lwmqtt_string_t) :
    Option (List Nat × Nat) :=
  lwmqtt_write_c_string mem ptr str.content

/-- Modelled from the spec: `lwmqtt_read_lp_string` of `helpers.c` (not among the
sources); sections 4.1 and 4.8: fails (returns false) if fewer than 2 length-prefix
bytes remain before `end_ptr` or if the declared length would run past `end_ptr`;
otherwise the string is the view of the declared length behind the prefix and the
cursor moves past it.  The result is `(return value, *str, *pptr)`. -/
def lwmqtt_read_lp_string (str : lwmqtt_lp_string_t) (mem : List Nat) (ptr end_ptr : Int) :
    Option (Bool × lwmqtt_lp_string_t × Int) :=
  if end_ptr - ptr > 1 then
    match lwmqtt_read_int mem ptr with
    | none => none
    | some (len, ptr1) =>
      if ptr1 + (len : Int) ≤ end_ptr then
        some (true, { len := (len : Int), data := ptr1 }, ptr1 + (len : Int))
      else
        some (false, str, ptr1)
  else
    some (false, str, ptr)

/-! ## `packet.c` -/

/-- The `do { ... } while (rem_len > 0)` loop of `lwmqtt_encode_remaining_length`;
the state is the buffer, `rem_len` and `len`. -/
def lwmqtt_encode_remaining_length_loop :
    Nat → List Nat → Nat → Nat → Nat → Option (List Nat × Nat)
  | 0, _, _, _, _ => none
  | fuel + 1, mem, buf, rem_len, len =>
    let d := (rem_len % 128) % 256
    let rem_len := rem_len / 128
    let d := if rem_len > 0 then d ||| 0x80 else d
    match store mem (buf + len) d with
    | none => none
    | some mem1 =>
      let len := len + 1
      if rem_len > 0 then lwmqtt_encode_remaining_length_loop fuel mem1 buf rem_len len
      else some (mem1, len)

/-- The function `lwmqtt_encode_remaining_length(buf, rem_len)`: the buffer after the call
and the returned `len`.  `rem_len` is never negative at a call site. -/
def lwmqtt_encode_remaining_length (mem : List Nat) (buf : Nat) (rem_len : Nat) :
    Option (List Nat × Nat) :=
  lwmqtt_encode_remaining_length_loop (rem_len + 1) mem buf rem_len 0

/-- The function `lwmqtt_total_header_length(rem_len)`. -/
def lwmqtt_total_header_length (rem_len : Nat) : Nat :=
  if rem_len < 128 then 1 + 1
  else if rem_len < 16384 then 1 + 2
  else if rem_len < 2097151 then 1 + 3
  else 1 + 4

/-- The `do { ... } while ((c & 128) != 0)` loop of `lwmqtt_decode_remaining_length`;
the state is `*rem_len`, `multiplier` and `len`, the result `(return value, *rem_len)`.
The body runs at most five times. -/
def lwmqtt_decode_remaining_length_loop (ovf : Int) (mem : List Nat) (buf : Int) :
    Nat → Int → Int → Int → Option (Int × Int)
  | 0, _, _, _ => none
  | fuel + 1, rem_len, multiplier, len =>
    let len := len + 1
    if len > 4 then some (ovf, rem_len)
    else
      match load mem (buf + (len - 1)) with
      | none => none
      | some c =>
        let rem_len := rem_len + ((c &&& 127 : Nat) : Int) * multiplier
        let multiplier := multiplier * 128
        if (c &&& 128) ≠ 0 then
          lwmqtt_decode_remaining_length_loop ovf mem buf fuel rem_len multiplier len
        else some (len, rem_len)

/-- The function `lwmqtt_decode_remaining_length(buf, &rem_len)`: `(return value, *rem_len)`. -/
def lwmqtt_decode_remaining_length (ovf : Int) (mem : List Nat) (buf : Int) :
    Option (Int × Int) :=
  lwmqtt_decode_remaining_length_loop ovf mem buf 5 0 1 0

/-- The union `lwmqtt_connect_flags_t`, fields in declaration order. -/
structure lwmqtt_connect_flags_t where
  clean_session : Nat
  will : Nat
  will_qos : Nat
  will_retain : Nat
  password : Nat
  username : Nat
deriving DecidableEq, Repr

/-- The member `byte` of `lwmqtt_connect_flags_t`; the unnamed first field stays 0. -/
def lwmqtt_connect_flags_t.byte (f : lwmqtt_connect_flags_t) : Nat :=
  bitfield_pack [(1, 0), (1, f.clean_session), (1, f.will), (2, f.will_qos),
    (1, f.will_retain), (1, f.password), (1, f.username)]

/-- The field `bits.session_present` of the union `lwmqtt_connack_flags_t` after
`flags.byte = b`: it is declared behind the 7-bit field `_`. -/
def lwmqtt_connack_flags_t.session_present (b : Nat) : Nat :=
  bitfield_get b 7 1

/-- Lines 94-115 of `lwmqtt_encode_connect`: the remaining length.  The source adds in
`int`; as every term is non-negative, this exact sum is the value of the source
whenever it is at most 2147483647. -/
def lwmqtt_encode_connect_rem_len (options : lwmqtt_options_t) (will : Option lwmqtt_will_t) :
    Nat :=
  let rem_len := 10
  let rem_len := rem_len + (lwmqtt_strlen options.client_id + 2)
  let rem_len :=
    match will with
    | some w => rem_len + (lwmqtt_strlen w.topic + 2 + w.payload.length + 2)
    | none => rem_len
  if options.username.has_c_string || options.username.has_lp_data then
    let rem_len := rem_len + (lwmqtt_strlen options.username + 2)
    if options.password.has_c_string || options.password.has_lp_data then
      rem_len + (lwmqtt_strlen options.password + 2)
    else rem_len
  else rem_len

/-- Lines 136-155 of `lwmqtt_encode_connect`: the connect flags. -/
def lwmqtt_encode_connect_flags (options : lwmqtt_options_t) (will : Option lwmqtt_will_t) :
    lwmqtt_connect_flags_t :=
  let flags : lwmqtt_connect_flags_t :=
    { clean_session := 0, will := 0, will_qos := 0, will_retain := 0, password := 0,
      username := 0 }
  let flags := { flags with clean_session := if options.clean_session then 1 else 0 }
  let flags :=
    match will with
    | some w =>
      { flags with will := 1, will_qos := w.qos, will_retain := if w.retained then 1 else 0 }
    | none => flags
  if options.username.has_c_string || options.username.has_lp_data then
    let flags := { flags with username := 1 }
    if options.password.has_c_string || options.password.has_lp_data then
      { flags with password := 1 }
    else flags
  else flags

/-- Lines 166-172 of `lwmqtt_encode_connect`: the will topic and payload, if a will is
given. -/
def lwmqtt_encode_connect_write_will (mem : List Nat) (ptr : Nat) :
    Option lwmqtt_will_t → Option (List Nat × Nat)
  | some w => do
    let (mem, ptr) ← lwmqtt_write_string mem ptr w.topic
    let (mem, ptr) ← lwmqtt_write_int mem ptr w.payload.length
    let mem ← memcpy mem ptr w.payload
    pure (mem, ptr + w.payload.length)
  | none => pure (mem, ptr)

/-- Lines 174-182 of `lwmqtt_encode_connect`: the username, and behind it the password,
as the flags say. -/
def lwmqtt_encode_connect_write_credentials (mem : List Nat) (ptr : Nat)
    (flags : lwmqtt_connect_flags_t) (options : lwmqtt_options_t) : Option (List Nat × Nat) :=
  if flags.username % 2 ≠ 0 then do
    let (mem, ptr) ← lwmqtt_write_string mem ptr options.username
    if flags.password % 2 ≠ 0 then
      lwmqtt_write_string mem ptr options.password
    else pure (mem, ptr)
  else pure (mem, ptr)

/-- Lines 122-182 of `lwmqtt_encode_connect`: the writes, from `ptr = buf`; the result is
the buffer and the final `ptr`. -/
def lwmqtt_encode_connect_write (mem : List Nat) (rem_len : Nat) (options : lwmqtt_options_t)
    (will : Option lwmqtt_will_t) : Option (List Nat × Nat) := do
  let header : lwmqtt_header_t := { retain := 0, qos := 0, dup := 0, type := LWMQTT_CONNECT_PACKET }
  let (mem, ptr) ← lwmqtt_write_char mem 0 header.byte
  let (mem, n) ← lwmqtt_encode_remaining_length mem ptr rem_len
  let ptr := ptr + n
  let (mem, ptr) ← lwmqtt_write_c_string mem ptr [77, 81, 84, 84]
  let (mem, ptr) ← lwmqtt_write_char mem ptr 4
  let flags := lwmqtt_encode_connect_flags options will
  let (mem, ptr) ← lwmqtt_write_char mem ptr flags.byte
  let (mem, ptr) ← lwmqtt_write_int mem ptr options.keep_alive
  let (mem, ptr) ← lwmqtt_write_string mem ptr options.client_id
  let (mem, ptr) ← lwmqtt_encode_connect_write_will mem ptr will
  lwmqtt_encode_connect_write_credentials mem ptr flags options

/-- The function `lwmqtt_encode_connect(buf, buf_len, &len, options, will)`: the return
value, the buffer and `*len` after the call.  The capacity check of line 118 adds in
`int`; the exact sum compared here is the value of the source whenever it is at most
2147483647. -/
def lwmqtt_encode_connect (mem : List Nat) (buf_len : Int) (len : Int)
    (options : lwmqtt_options_t) (will : Option lwmqtt_will_t) :
    Option (lwmqtt_err_t × List Nat × Int) :=
  let rem_len := lwmqtt_encode_connect_rem_len options will
  if ((lwmqtt_total_header_length rem_len + rem_len : Nat) : Int) > buf_len then
    some (LWMQTT_BUFFER_TOO_SHORT_ERROR, mem, len)
  else
    match lwmqtt_encode_connect_write mem rem_len options will with
    | none => none
    | some (mem1, ptr) => some (LWMQTT_SUCCESS, mem1, (ptr : Int))

/-- The out-parameters `*session_present` and `*connack_rc` of `lwmqtt_decode_connack`. -/
structure connack_out where
  session_present : Bool
  connack_rc : Nat
deriving DecidableEq, Repr

/-- The function `lwmqtt_decode_connack(&session_present, &connack_rc, buf, buf_len)`:
the return value and the out-parameters after the call. -/
def lwmqtt_decode_connack (ovf : Int) (out : connack_out) (mem : List Nat) (buf_len : Int) :
    Option (lwmqtt_err_t × connack_out) :=
  match lwmqtt_read_char mem 0 with
  | none => none
  | some (b, ptr) =>
    let header := lwmqtt_header_t.of_byte b
    if header.type ≠ LWMQTT_CONNACK_PACKET then some (LWMQTT_FAILURE, out)
    else
      match lwmqtt_decode_remaining_length ovf mem ptr with
      | none => none
      | some (rc, len) =>
        if rc = ovf then some (LWMQTT_REMAINING_LENGTH_OVERFLOW, out)
        else if len ≠ 2 ∨ buf_len < len + 2 then some (LWMQTT_LENGTH_MISMATCH, out)
        else
          let ptr := ptr + 1
          match lwmqtt_read_char mem ptr with
          | none => none
          | some (flags, ptr) =>
            let out := { out with
              session_present := lwmqtt_connack_flags_t.session_present flags == 1 }
            match lwmqtt_read_char mem ptr with
            | none => none
            | some (r, _) => some (LWMQTT_SUCCESS, { out with connack_rc := r })

/-- The function `lwmqtt_encode_zero(buf, buf_len, &len, packet)`. -/
def lwmqtt_encode_zero (mem : List Nat) (buf_len : Int) (len : Int) (packet : Nat) :
    Option (lwmqtt_err_t × List Nat × Int) :=
  if buf_len < 2 then some (LWMQTT_BUFFER_TOO_SHORT_ERROR, mem, len)
  else
    let header : lwmqtt_header_t := { retain := 0, qos := 0, dup := 0, type := packet }
    match lwmqtt_write_char mem 0 header.byte with
    | none => none
    | some (mem1, ptr) =>
      match lwmqtt_encode_remaining_length mem1 ptr 0 with
      | none => none
      | some (mem2, n) => some (LWMQTT_SUCCESS, mem2, ((ptr + n : Nat) : Int))

/-- The out-parameters `*packet_type`, `*dup` and `*packet_id` of `lwmqtt_decode_ack`. -/
structure ack_out where
  packet_type : Nat
  dup : Bool
  packet_id : Nat
deriving DecidableEq, Repr

/-- The function `lwmqtt_decode_ack(&packet_type, &dup, &packet_id, buf, buf_len)`: the
return value and the out-parameters after the call. -/
def lwmqtt_decode_ack (ovf : Int) (out : ack_out) (mem : List Nat) (buf_len : Int) :
    Option (lwmqtt_err_t × ack_out) :=
  match lwmqtt_read_char mem 0 with
  | none => none
  | some (b, cur_ptr) =>
    let header := lwmqtt_header_t.of_byte b
    let out := { out with dup := header.dup == 1 }
    let out := { out with packet_type := header.type }
    match lwmqtt_decode_remaining_length ovf mem cur_ptr with
    | none => none
    | some (rc, rem_len) =>
      if rc = ovf then some (LWMQTT_REMAINING_LENGTH_OVERFLOW, out)
      else if rem_len ≠ 2 ∨ buf_len < rem_len + 2 then some (LWMQTT_LENGTH_MISMATCH, out)
      else
        let cur_ptr := cur_ptr + 1
        match lwmqtt_read_int mem cur_ptr with
        | none => none
        | some (id, _) => some (LWMQTT_SUCCESS, { out with packet_id := id % 65536 })

/-- The function `lwmqtt_encode_ack(buf, buf_len, &len, packet, dup, packet_id)`: the
return value, the buffer and `*len` after the call. -/
def lwmqtt_encode_ack (mem : List Nat) (buf_len : Int) (len : Int) (packet : Nat) (dup : Bool)
    (packet_id : Nat) : Option (lwmqtt_err_t × List Nat × Int) :=
  if buf_len < 4 then some (LWMQTT_BUFFER_TOO_SHORT_ERROR, mem, len)
  else
    let header : lwmqtt_header_t :=
      { retain := 0, qos := if packet = LWMQTT_PUBREL_PACKET then 1 else 0,
        dup := if dup then 1 else 0, type := packet }
    match lwmqtt_write_char mem 0 header.byte with
    | none => none
    | some (mem1, ptr) =>
      match lwmqtt_encode_remaining_length mem1 ptr 2 with
      | none => none
      | some (mem2, n) =>
        match lwmqtt_write_int mem2 (ptr + n) (packet_id % 65536) with
        | none => none
        | some (mem3, ptr3) => some (LWMQTT_SUCCESS, mem3, (ptr3 : Int))

/-- The out-parameters of `lwmqtt_decode_publish`; `payload` is an offset from `buf`. -/
structure publish_out where
  dup : Bool
  qos : Nat
  retained : Bool
  packet_id : Nat
  topic : lwmqtt_lp_string_t
  payload : Int
  payload_len : Int
deriving DecidableEq, Repr

/-- The function `lwmqtt_decode_publish(&dup, &qos, &retained, &packet_id, &topic, &payload,
&payload_len, buf, buf_len)`: the return value and the out-parameters after the call.
`buf_len` is not used by the source. -/
def lwmqtt_decode_publish (ovf : Int) (out : publish_out) (mem : List Nat) (_buf_len : Int) :
    Option (lwmqtt_err_t × publish_out) :=
  match lwmqtt_read_char mem 0 with
  | none => none
  | some (b, ptr) =>
    let header := lwmqtt_header_t.of_byte b
    if header.type ≠ LWMQTT_PUBLISH_PACKET then some (LWMQTT_FAILURE, out)
    else
      let out := { out with dup := header.dup == 1 }
      let out := { out with qos := header.qos }
      let out := { out with retained := header.retain == 1 }
      match lwmqtt_decode_remaining_length ovf mem ptr with
      | none => none
      | some (rc, rem_len) =>
        let ptr := ptr + rc
        let end_ptr := ptr + rem_len
        match lwmqtt_read_lp_string out.topic mem ptr end_ptr with
        | none => none
        | some (ok, topic, ptr) =>
          let out := { out with topic := topic }
          if !ok || end_ptr - ptr < 0 then some (LWMQTT_FAILURE, out)
          else
            match (if out.qos > 0 then
                match lwmqtt_read_int mem ptr with
                | none => none
                | some (id, ptr1) => some ({ out with packet_id := id % 65536 }, ptr1)
              else some (out, ptr)) with
            | none => none
            | some (out, ptr) =>
              some (LWMQTT_SUCCESS, { out with payload_len := end_ptr - ptr, payload := ptr })

/-- Lines 361-367 of `lwmqtt_encode_publish`: the remaining length.  The source adds in
`int`; as every term is non-negative, this exact sum is the value of the source
whenever it is at most 2147483647. -/
def lwmqtt_encode_publish_rem_len (qos : Nat) (topic : lwmqtt_string_t) (payload : List Nat) :
    Nat :=
  let rem_len := 2 + lwmqtt_strlen topic + payload.length
  if qos > 0 then rem_len + 2 else rem_len

/-- The function `lwmqtt_encode_publish(buf, buf_len, &len, dup, qos, retained, packet_id,
topic, payload, payload_len)`: the return value, the buffer and `*len` after the call;
`payload_len` is the length of `payload`.  The capacity check of line 370 adds in `int`;
the exact sum compared here is the value of the source whenever it is at most
2147483647. -/
def lwmqtt_encode_publish (mem : List Nat) (buf_len : Int) (len : Int) (dup : Bool) (qos : Nat)
    (retained : Bool) (packet_id : Nat) (topic : lwmqtt_string_t) (payload : List Nat) :
    Option (lwmqtt_err_t × List Nat × Int) :=
  let rem_len := lwmqtt_encode_publish_rem_len qos topic payload
  if ((lwmqtt_total_header_length rem_len + rem_len : Nat) : Int) > buf_len then
    some (LWMQTT_BUFFER_TOO_SHORT_ERROR, mem, len)
  else
    let header : lwmqtt_header_t :=
      { retain := if retained then 1 else 0, qos := qos, dup := if dup then 1 else 0,
        type := LWMQTT_PUBLISH_PACKET }
    match lwmqtt_write_char mem 0 header.byte with
    | none => none
    | some (mem1, ptr) =>
      match lwmqtt_encode_remaining_length mem1 ptr rem_len with
      | none => none
      | some (mem2, n) =>
        match lwmqtt_write_string mem2 (ptr + n) topic with
        | none => none
        | some (mem3, ptr3) =>
          match (if qos > 0 then lwmqtt_write_int mem3 ptr3 (packet_id % 65536)
            else some (mem3, ptr3)) with
          | none => none
          | some (mem4, ptr4) =>
            match memcpy mem4 ptr4 payload with
            | none => none
            | some mem5 => some (LWMQTT_SUCCESS, mem5, ((ptr4 + payload.length : Nat) : Int))

/-! ## Auxiliary definitions for the proofs -/

/-- The buffer `mem0` after the bytes `out` have been written from its start. -/
def written (mem0 out : List Nat) : List Nat :=
  out ++ mem0.drop out.length

/-- The digits `lwmqtt_encode_remaining_length` produces, as a list. -/
def remaining_length_digits : Nat → Nat → List Nat
  | 0, _ => []
  | fuel + 1, n =>
    if n / 128 > 0 then (n % 128 ||| 0x80) :: remaining_length_digits fuel (n / 128)
    else [n % 128]

/-- The remaining-length field for the value `n`. -/
def remaining_length_bytes (n : Nat) : List Nat :=
  remaining_length_digits (n + 1) n

/-- A wire string: the 2-byte big-endian length followed by the bytes. -/
def wire_string (s : List Nat) : List Nat :=
  [s.length / 256 % 256, s.length % 256] ++ s

/-- The will section of a CONNECT packet. -/
def connect_will_bytes : Option lwmqtt_will_t → List Nat
  | none => []
  | some w =>
    wire_string w.topic.content ++ [w.payload.length / 256 % 256, w.payload.length % 256]
      ++ w.payload

/-- The credentials section of a CONNECT packet. -/
def connect_credential_bytes (options : lwmqtt_options_t) : List Nat :=
  if options.username.has_c_string || options.username.has_lp_data then
    wire_string options.username.content
      ++ (if options.password.has_c_string || options.password.has_lp_data then
        wire_string options.password.content else [])
  else []

/-- The CONNECT request of the examples: client id "abc", clean session, keep-alive 60,
no credentials. -/
def connect_example_options : lwmqtt_options_t :=
  { client_id := .c_string [97, 98, 99], keep_alive := 60, clean_session := true,
    username := .null, password := .null }

/-- The CONNECT request of the examples with a password but no username. -/
def connect_example_password_only : lwmqtt_options_t :=
  { client_id := .c_string [97, 98, 99], keep_alive := 60, clean_session := true,
    username := .null, password := .lp_string [112, 119] }

/-- A will with an empty topic and a payload of 268435456 bytes. -/
def connect_example_oversized_will : lwmqtt_will_t :=
  { topic := .null, payload := List.replicate 268435456 0, qos := 0, retained := false }

/-- The byte of the same union were bit-fields allocated from the most significant bit. -/
def bitfield_pack_msb_first (fields : List (Nat × Nat)) : Nat :=
  bitfield_pack fields.reverse

/-! ## Lemmas -/

theorem and_127 (c : Nat) : c &&& 127 = c % 128 :=
  Nat.and_pow_two_sub_one_eq_mod c 7

theorem and_128 (c : Nat) : c &&& 128 = (c / 128 % 2) * 128 := by
  have h := Nat.and_two_pow c 7
  rw [Nat.testBit_to_div_mod] at h
  have h2 : c / 128 % 2 = 0 ∨ c / 128 % 2 = 1 := by omega
  rcases h2 with h2 | h2 <;> simp_all

theorem or_128 (d : Nat) (h : d < 128) : d ||| 128 = d + 128 := by
  have := Nat.mul_add_lt_is_or (show d < 2 ^ 7 by simpa using h) 1
  rw [Nat.or_comm]
  simpa [Nat.add_comm] using this.symm

theorem written_nil (mem0 : List Nat) : written mem0 [] = mem0 := by
  simp [written]

theorem written_length (mem0 out : List Nat) (h : out.length ≤ mem0.length) :
    (written mem0 out).length = mem0.length := by
  simp [written]; omega

theorem written_take (mem : List Nat) (buf : Nat) : written mem (mem.take buf) = mem := by
  simp only [written, List.length_take]
  by_cases h : buf ≤ mem.length
  · rw [Nat.min_eq_left h]; exact List.take_append_drop buf mem
  · have h1 : mem.length ≤ buf := by omega
    rw [Nat.min_eq_right h1, List.take_of_length_le h1]; simp

theorem store_written (mem0 out : List Nat) (ptr v : Nat) (hp : ptr = out.length) :
    store (written mem0 out) ptr v =
      if ptr < mem0.length then some (written mem0 (out ++ [v])) else none := by
  subst hp
  unfold store written
  by_cases h : out.length < mem0.length
  · have hl : out.length < (out ++ List.drop out.length mem0).length := by simp; omega
    rw [if_pos hl, if_pos h]
    congr 1
    rw [List.set_append_right _ _ (le_refl _)]
    simp only [Nat.sub_self, List.append_assoc, List.length_append, List.length_singleton]
    have hd : List.drop out.length mem0 = mem0[out.length] :: List.drop (out.length + 1) mem0 :=
      List.drop_eq_getElem_cons h
    rw [hd, List.set_cons_zero]; simp
  · have hl : ¬ out.length < (out ++ List.drop out.length mem0).length := by simp; omega
    rw [if_neg hl, if_neg h]

theorem memcpy_written (mem0 : List Nat) (bs out : List Nat) (ptr : Nat)
    (hp : ptr = out.length) (hroom : ptr + bs.length ≤ mem0.length) :
    memcpy (written mem0 out) ptr bs = some (written mem0 (out ++ bs)) := by
  induction bs generalizing out ptr with
  | nil => simp [memcpy]
  | cons b bs ih =>
    simp only [List.length_cons] at hroom
    unfold memcpy
    rw [store_written mem0 out ptr b hp, if_pos (by omega)]
    simp only
    rw [ih (out ++ [b]) (ptr + 1) (by simp [hp]) (by omega)]
    simp

theorem write_char_written (mem0 out : List Nat) (ptr chr : Nat)
    (hp : ptr = out.length) (hroom : ptr + 1 ≤ mem0.length) :
    lwmqtt_write_char (written mem0 out) ptr chr =
      some (written mem0 (out ++ [chr % 256]), ptr + 1) := by
  unfold lwmqtt_write_char
  rw [store_written mem0 out ptr _ hp, if_pos (by omega)]

theorem write_int_written (mem0 out : List Nat) (ptr num : Nat)
    (hp : ptr = out.length) (hroom : ptr + 2 ≤ mem0.length) :
    lwmqtt_write_int (written mem0 out) ptr num =
      some (written mem0 (out ++ [num / 256 % 256, num % 256]), ptr + 2) := by
  unfold lwmqtt_write_int
  rw [write_char_written mem0 out ptr _ hp (by omega)]
  simp only
  rw [write_char_written mem0 _ (ptr + 1) _ (by simp [hp]) (by omega)]
  simp [Nat.mod_mod_of_dvd]

theorem write_c_string_written (mem0 out : List Nat) (ptr : Nat) (s : List Nat)
    (hp : ptr = out.length) (hroom : ptr + 2 + s.length ≤ mem0.length) :
    lwmqtt_write_c_string (written mem0 out) ptr s =
      some (written mem0 (out ++ ([s.length / 256 % 256, s.length % 256] ++ s)),
        ptr + 2 + s.length) := by
  unfold lwmqtt_write_c_string
  rw [write_int_written mem0 out ptr _ hp (by omega)]
  simp only
  rw [memcpy_written mem0 s _ (ptr + 2) (by simp [hp]) (by omega)]
  simp

theorem write_string_written (mem0 out : List Nat) (ptr : Nat) (str : lwmqtt_string_t)
    (hp : ptr = out.length) (hroom : ptr + 2 + lwmqtt_strlen str ≤ mem0.length) :
    lwmqtt_write_string (written mem0 out) ptr str =
      some (written mem0 (out ++ ([lwmqtt_strlen str / 256 % 256, lwmqtt_strlen str % 256]
        ++ str.content)), ptr + 2 + lwmqtt_strlen str) :=
  write_c_string_written mem0 out ptr str.content hp hroom

theorem encode_remaining_length_loop_written (mem0 : List Nat) (fuel : Nat) :
    ∀ (n : Nat) (out : List Nat) (buf len : Nat), n < fuel → buf + len = out.length →
      lwmqtt_encode_remaining_length_loop fuel (written mem0 out) buf n len =
        if out.length + (remaining_length_digits fuel n).length ≤ mem0.length then
          some (written mem0 (out ++ remaining_length_digits fuel n),
            len + (remaining_length_digits fuel n).length)
        else none := by
  induction fuel with
  | zero => intro n out buf len h; omega
  | succ fuel ih =>
    intro n out buf len hn hp
    unfold lwmqtt_encode_remaining_length_loop remaining_length_digits
    have hd : n % 128 % 256 = n % 128 := by omega
    simp only [hd]
    by_cases hq : n / 128 > 0
    · simp only [hq, if_true]
      rw [store_written mem0 out (buf + len) _ hp]
      by_cases hr : buf + len < mem0.length
      · rw [if_pos hr]
        simp only
        rw [ih (n / 128) _ buf (len + 1) (by omega) (by simp; omega)]
        simp only [List.length_append, List.length_cons, List.length_nil, List.append_assoc,
          List.singleton_append]
        by_cases hc : out.length + 0 + 1 + (remaining_length_digits fuel (n / 128)).length
            ≤ mem0.length
        · rw [if_pos hc, if_pos (by omega)]; congr 2; omega
        · rw [if_neg hc, if_neg (by omega)]
      · rw [if_neg hr]
        simp only [List.length_cons]
        rw [if_neg (by omega)]
    · simp only [hq, if_false]
      rw [store_written mem0 out (buf + len) _ hp]
      by_cases hr : buf + len < mem0.length
      · rw [if_pos hr]
        simp only [List.length_cons, List.length_nil]
        rw [if_pos (by omega)]
      · rw [if_neg hr]
        simp only [List.length_cons, List.length_nil]
        rw [if_neg (by omega)]

theorem remaining_length_digits_fuel (f1 : Nat) :
    ∀ f2 n, n < f1 → n < f2 → remaining_length_digits f1 n = remaining_length_digits f2 n := by
  induction f1 with
  | zero => intro f2 n h; omega
  | succ f1 ih =>
    intro f2 n h1 h2
    cases f2 with
    | zero => omega
    | succ f2 =>
      unfold remaining_length_digits
      by_cases hq : n / 128 > 0
      · simp only [hq, if_true]
        rw [ih f2 (n / 128) (by omega) (by omega)]
      · simp only [hq, if_false]

theorem remaining_length_bytes_eq (n : Nat) :
    remaining_length_bytes n =
      if n / 128 > 0 then (n % 128 + 128) :: remaining_length_bytes (n / 128)
      else [n % 128] := by
  unfold remaining_length_bytes
  rw [remaining_length_digits]
  by_cases hq : n / 128 > 0
  · simp only [hq, if_true]
    rw [remaining_length_digits_fuel n (n / 128 + 1) (n / 128) (by omega) (by omega),
      or_128 _ (by omega)]
  · simp only [hq, if_false]

theorem remaining_length_bytes_1 (n : Nat) (h : n < 128) : remaining_length_bytes n = [n] := by
  rw [remaining_length_bytes_eq, if_neg (by omega)]
  congr 1; omega

theorem remaining_length_bytes_2 (n : Nat) (h1 : 128 ≤ n) (h2 : n < 16384) :
    remaining_length_bytes n = [n % 128 + 128, n / 128] := by
  rw [remaining_length_bytes_eq, if_pos (by omega),
    remaining_length_bytes_1 _ (by omega)]

theorem remaining_length_bytes_3 (n : Nat) (h1 : 16384 ≤ n) (h2 : n < 2097152) :
    remaining_length_bytes n = [n % 128 + 128, n / 128 % 128 + 128, n / 16384] := by
  rw [remaining_length_bytes_eq, if_pos (by omega),
    remaining_length_bytes_2 _ (by omega) (by omega)]
  congr 3; omega

theorem remaining_length_bytes_4 (n : Nat) (h1 : 2097152 ≤ n) (h2 : n < 268435456) :
    remaining_length_bytes n =
      [n % 128 + 128, n / 128 % 128 + 128, n / 16384 % 128 + 128, n / 2097152] := by
  rw [remaining_length_bytes_eq, if_pos (by omega),
    remaining_length_bytes_3 _ (by omega) (by omega)]
  have e1 : n / 128 / 128 = n / 16384 := by omega
  have e2 : n / 128 / 16384 = n / 2097152 := by omega
  rw [e1, e2]

theorem remaining_length_bytes_length (n : Nat) (h : n ≤ 268435455) :
    (remaining_length_bytes n).length =
      if n < 128 then 1 else if n < 16384 then 2 else if n < 2097152 then 3 else 4 := by
  by_cases h1 : n < 128
  · rw [remaining_length_bytes_1 n h1, if_pos h1]; rfl
  · by_cases h2 : n < 16384
    · rw [remaining_length_bytes_2 n (by omega) h2, if_neg h1, if_pos h2]; rfl
    · by_cases h3 : n < 2097152
      · rw [remaining_length_bytes_3 n (by omega) h3, if_neg h1, if_neg h2, if_pos h3]; rfl
      · rw [remaining_length_bytes_4 n (by omega) (by omega), if_neg h1, if_neg h2, if_neg h3]
        rfl

theorem encode_remaining_length_written (mem0 out : List Nat) (ptr n : Nat)
    (hp : ptr = out.length) :
    lwmqtt_encode_remaining_length (written mem0 out) ptr n =
      if out.length + (remaining_length_bytes n).length ≤ mem0.length then
        some (written mem0 (out ++ remaining_length_bytes n), (remaining_length_bytes n).length)
      else none := by
  unfold lwmqtt_encode_remaining_length remaining_length_bytes
  rw [encode_remaining_length_loop_written mem0 (n + 1) n out ptr 0 (by omega) (by omega)]
  simp

theorem load_nat (mem : List Nat) (i : Nat) : load mem (i : Int) = mem[i]? := by
  simp [load]

theorem load_written (mem0 pre post : List Nat) (ptr : Int) (i : Nat)
    (hp : ptr = (pre.length : Int) + i) :
    load (written mem0 (pre ++ post)) ptr = if i < post.length then post[i]? else
      mem0[pre.length + i]? := by
  subst hp
  have : ((pre.length : Int) + (i : Int)) = ((pre.length + i : Nat) : Int) := by push_cast; rfl
  rw [this, load_nat]
  unfold written
  by_cases h : i < post.length
  · rw [if_pos h, List.getElem?_append_left (by simp; omega),
      List.getElem?_append_right (by omega)]
    simp
  · rw [if_neg h, List.getElem?_append_right (by simp; omega), List.getElem?_drop]
    congr 1
    simp; omega

theorem decode_remaining_length_unfold (ovf : Int) (mem : List Nat) (buf : Int) :
    lwmqtt_decode_remaining_length ovf mem buf =
      match load mem buf with
      | none => none
      | some c0 =>
        if c0 / 128 % 2 = 1 then
          match load mem (buf + 1) with
          | none => none
          | some c1 =>
            if c1 / 128 % 2 = 1 then
              match load mem (buf + 2) with
              | none => none
              | some c2 =>
                if c2 / 128 % 2 = 1 then
                  match load mem (buf + 3) with
                  | none => none
                  | some c3 =>
                    if c3 / 128 % 2 = 1 then
                      some (ovf, ((c0 % 128 + c1 % 128 * 128 + c2 % 128 * 16384
                        + c3 % 128 * 2097152 : Nat) : Int))
                    else
                      some (4, ((c0 % 128 + c1 % 128 * 128 + c2 % 128 * 16384
                        + c3 % 128 * 2097152 : Nat) : Int))
                else some (3, ((c0 % 128 + c1 % 128 * 128 + c2 % 128 * 16384 : Nat) : Int))
            else some (2, ((c0 % 128 + c1 % 128 * 128 : Nat) : Int))
        else some (1, ((c0 % 128 : Nat) : Int)) := by
  unfold lwmqtt_decode_remaining_length
  cases h0 : load mem buf with
  | none => simp [lwmqtt_decode_remaining_length_loop, h0]
  | some c0 =>
    cases h1 : load mem (buf + 1) with
    | none => simp [lwmqtt_decode_remaining_length_loop, h0, h1, and_127, and_128]
    | some c1 =>
      cases h2 : load mem (buf + 2) with
      | none => simp [lwmqtt_decode_remaining_length_loop, h0, h1, h2, and_127, and_128]
      | some c2 =>
        cases h3 : load mem (buf + 3) with
        | none => simp [lwmqtt_decode_remaining_length_loop, h0, h1, h2, h3, and_127, and_128]
        | some c3 =>
          simp [lwmqtt_decode_remaining_length_loop, h0, h1, h2, h3, and_127, and_128]

theorem decode_remaining_length_1 (ovf : Int) (mem : List Nat) (buf : Int) (c0 : Nat)
    (h0 : load mem buf = some c0) (hc0 : c0 < 128) :
    lwmqtt_decode_remaining_length ovf mem buf = some (1, (c0 : Int)) := by
  rw [decode_remaining_length_unfold, h0]
  simp only
  rw [if_neg (by omega), Nat.mod_eq_of_lt hc0]

theorem decode_remaining_length_2 (ovf : Int) (mem : List Nat) (buf : Int) (c0 c1 : Nat)
    (h0 : load mem buf = some (c0 + 128)) (h1 : load mem (buf + 1) = some c1)
    (hc0 : c0 < 128) (hc1 : c1 < 128) :
    lwmqtt_decode_remaining_length ovf mem buf = some (2, ((c0 + c1 * 128 : Nat) : Int)) := by
  rw [decode_remaining_length_unfold, h0]
  simp only
  rw [if_pos (by omega), h1]
  simp only
  rw [if_neg (by omega)]
  congr 3; omega

theorem decode_remaining_length_3 (ovf : Int) (mem : List Nat) (buf : Int) (c0 c1 c2 : Nat)
    (h0 : load mem buf = some (c0 + 128)) (h1 : load mem (buf + 1) = some (c1 + 128))
    (h2 : load mem (buf + 2) = some c2)
    (hc0 : c0 < 128) (hc1 : c1 < 128) (hc2 : c2 < 128) :
    lwmqtt_decode_remaining_length ovf mem buf =
      some (3, ((c0 + c1 * 128 + c2 * 16384 : Nat) : Int)) := by
  rw [decode_remaining_length_unfold, h0]
  simp only
  rw [if_pos (by omega), h1]
  simp only
  rw [if_pos (by omega), h2]
  simp only
  rw [if_neg (by omega)]
  congr 3; omega

theorem decode_remaining_length_4 (ovf : Int) (mem : List Nat) (buf : Int) (c0 c1 c2 c3 : Nat)
    (h0 : load mem buf = some (c0 + 128)) (h1 : load mem (buf + 1) = some (c1 + 128))
    (h2 : load mem (buf + 2) = some (c2 + 128)) (h3 : load mem (buf + 3) = some c3)
    (hc0 : c0 < 128) (hc1 : c1 < 128) (hc2 : c2 < 128) (hc3 : c3 < 128) :
    lwmqtt_decode_remaining_length ovf mem buf =
      some (4, ((c0 + c1 * 128 + c2 * 16384 + c3 * 2097152 : Nat) : Int)) := by
  rw [decode_remaining_length_unfold, h0]
  simp only
  rw [if_pos (by omega), h1]
  simp only
  rw [if_pos (by omega), h2]
  simp only
  rw [if_pos (by omega), h3]
  simp only
  rw [if_neg (by omega)]
  congr 3; omega

/-- Decoding the field that `remaining_length_bytes n` describes, found behind `pre`. -/
theorem decode_remaining_length_bytes (ovf : Int) (mem0 pre post : List Nat) (n : Nat)
    (hn : n ≤ 268435455) (ptr : Int) (hp : ptr = (pre.length : Int)) :
    lwmqtt_decode_remaining_length ovf (written mem0 (pre ++ (remaining_length_bytes n ++ post)))
      ptr = some (((remaining_length_bytes n).length : Int), (n : Int)) := by
  subst hp
  have L : ∀ (i : Nat) (l : List Nat) (c : Nat), l[i]? = some c →
      load (written mem0 (pre ++ (l ++ post))) ((pre.length : Int) + i) = some c := by
    intro i l c h
    have hi : i < l.length := by
      by_contra hh
      rw [List.getElem?_eq_none (by omega)] at h
      cases h
    rw [load_written mem0 pre (l ++ post) _ i rfl, if_pos (by simp; omega),
      List.getElem?_append_left hi, h]
  have L0 : ∀ (l : List Nat) (c : Nat), l[0]? = some c →
      load (written mem0 (pre ++ (l ++ post))) (pre.length : Int) = some c := by
    intro l c h
    have := L 0 l c h
    simpa using this
  by_cases h1 : n < 128
  · rw [remaining_length_bytes_1 n h1]
    exact decode_remaining_length_1 ovf _ _ n (L0 _ _ rfl) h1
  · by_cases h2 : n < 16384
    · rw [remaining_length_bytes_2 n (by omega) h2]
      have := decode_remaining_length_2 ovf _ _ (n % 128) (n / 128) (L0 _ _ rfl)
        (L 1 [n % 128 + 128, n / 128] _ rfl) (by omega) (by omega)
      rw [this]
      congr 3; omega
    · by_cases h3 : n < 2097152
      · rw [remaining_length_bytes_3 n (by omega) h3]
        have := decode_remaining_length_3 ovf _ _ (n % 128) (n / 128 % 128) (n / 16384)
          (L0 _ _ rfl) (L 1 [n % 128 + 128, n / 128 % 128 + 128, n / 16384] _ rfl)
          (L 2 [n % 128 + 128, n / 128 % 128 + 128, n / 16384] _ rfl)
          (by omega) (by omega) (by omega)
        rw [this]
        congr 3; omega
      · rw [remaining_length_bytes_4 n (by omega) (by omega)]
        have := decode_remaining_length_4 ovf _ _ (n % 128) (n / 128 % 128)
          (n / 16384 % 128) (n / 2097152)
          (L0 _ _ rfl)
          (L 1 [n % 128 + 128, n / 128 % 128 + 128, n / 16384 % 128 + 128, n / 2097152] _ rfl)
          (L 2 [n % 128 + 128, n / 128 % 128 + 128, n / 16384 % 128 + 128, n / 2097152] _ rfl)
          (L 3 [n % 128 + 128, n / 128 % 128 + 128, n / 16384 % 128 + 128, n / 2097152] _ rfl)
          (by omega) (by omega) (by omega) (by omega)
        rw [this]
        congr 3; omega

/-! ## Remaining length -/

theorem encode_remaining_length_out_of_range (mem : List Nat) (buf n : Nat)
    (h : mem.length ≤ buf) : lwmqtt_encode_remaining_length mem buf n = none := by
  unfold lwmqtt_encode_remaining_length lwmqtt_encode_remaining_length_loop
  have hs : ∀ v, store mem (buf + 0) v = none := by
    intro v
    unfold store
    rw [if_neg (by omega)]
  simp only [hs]

/-- C1: for every n in 0..268435455, the bytes that `lwmqtt_encode_remaining_length`
writes for n (it does write them whenever four cells are free at `buf`) are decoded by
`lwmqtt_decode_remaining_length` to the value n, with the number k of bytes written
returned as the number of bytes consumed. -/
theorem remaining_length_round_trip (ovf : Int) (mem : List Nat) (buf n : Nat)
    (hn : n ≤ 268435455) :
    (buf + 4 ≤ mem.length →
      ∃ mem1 k, lwmqtt_encode_remaining_length mem buf n = some (mem1, k)) ∧
    ∀ mem1 k, lwmqtt_encode_remaining_length mem buf n = some (mem1, k) →
      lwmqtt_decode_remaining_length ovf mem1 (buf : Int) = some ((k : Int), (n : Int)) := by
  have hlen := remaining_length_bytes_length n hn
  have hk : (remaining_length_bytes n).length ≤ 4 := by
    rw [hlen]; split_ifs <;> omega
  by_cases hb : buf ≤ mem.length
  · have hw : lwmqtt_encode_remaining_length mem buf n =
        if buf + (remaining_length_bytes n).length ≤ mem.length then
          some (written mem (mem.take buf ++ remaining_length_bytes n),
            (remaining_length_bytes n).length)
        else none := by
      have h := encode_remaining_length_written mem (mem.take buf) buf n (by simp [hb])
      rw [written_take] at h
      rw [h]
      simp [Nat.min_eq_left hb]
    constructor
    · intro hroom
      rw [hw, if_pos (by omega)]
      exact ⟨_, _, rfl⟩
    · intro mem1 k h
      rw [hw] at h
      split_ifs at h with hc
      simp only [Option.some.injEq, Prod.mk.injEq] at h
      obtain ⟨rfl, rfl⟩ := h
      have := decode_remaining_length_bytes ovf mem (mem.take buf) [] n hn (buf : Int)
        (by simp [hb])
      simpa using this
  · constructor
    · intro hroom; omega
    · intro mem1 k h
      rw [encode_remaining_length_out_of_range mem buf n (by omega)] at h
      cases h

theorem remaining_length_round_trip_witness :
    lwmqtt_decode_remaining_length (-3) [9, 172, 2, 9, 9, 9] 1 = some (2, 300) :=
  (remaining_length_round_trip (-3) [9, 9, 9, 9, 9, 9] 1 300 (by decide)).2
    [9, 172, 2, 9, 9, 9] 2 (by decide)

/-! ## Headers and capacity -/

theorem header_byte_eq (h : lwmqtt_header_t) (hr : h.retain ≤ 1) (hq : h.qos ≤ 3)
    (hd : h.dup ≤ 1) (ht : h.type ≤ 15) :
    h.byte = 16 * h.type + 8 * h.dup + 2 * h.qos + h.retain := by
  simp only [lwmqtt_header_t.byte, bitfield_pack]
  norm_num
  omega

theorem header_byte_lt (h : lwmqtt_header_t) : h.byte < 256 := by
  simp only [lwmqtt_header_t.byte, bitfield_pack]
  norm_num
  omega

theorem total_header_length_ge (n : Nat) (hn : n ≤ 268435455) :
    1 + (remaining_length_bytes n).length ≤ lwmqtt_total_header_length n := by
  rw [remaining_length_bytes_length n hn]
  unfold lwmqtt_total_header_length
  split_ifs <;> omega

/-! ## PUBLISH -/

/-- What `lwmqtt_encode_publish` does when the declared capacity is available and the
remaining length is representable. -/
theorem encode_publish_eq (mem : List Nat) (buf_len len : Int) (dup : Bool) (qos : Nat)
    (retained : Bool) (packet_id : Nat) (topic : lwmqtt_string_t) (payload : List Nat)
    (hmem : buf_len ≤ (mem.length : Int))
    (hrem : lwmqtt_encode_publish_rem_len qos topic payload ≤ 268435455) :
    lwmqtt_encode_publish mem buf_len len dup qos retained packet_id topic payload =
      if ((lwmqtt_total_header_length (lwmqtt_encode_publish_rem_len qos topic payload)
          + lwmqtt_encode_publish_rem_len qos topic payload : Nat) : Int) > buf_len then
        some (LWMQTT_BUFFER_TOO_SHORT_ERROR, mem, len)
      else
        some (LWMQTT_SUCCESS,
          written mem
            ([lwmqtt_header_t.byte
                { retain := if retained then 1 else 0, qos := qos,
                  dup := if dup then 1 else 0, type := LWMQTT_PUBLISH_PACKET }]
              ++ remaining_length_bytes (lwmqtt_encode_publish_rem_len qos topic payload)
              ++ [lwmqtt_strlen topic / 256 % 256, lwmqtt_strlen topic % 256]
              ++ topic.content
              ++ (if qos > 0 then [packet_id % 65536 / 256, packet_id % 256] else [])
              ++ payload),
          ((1 + (remaining_length_bytes (lwmqtt_encode_publish_rem_len qos topic payload)).length
            + lwmqtt_encode_publish_rem_len qos topic payload : Nat) : Int)) := by
  unfold lwmqtt_encode_publish
  simp only
  generalize hR : lwmqtt_encode_publish_rem_len qos topic payload = R at hrem ⊢
  by_cases hc : ((lwmqtt_total_header_length R + R : Nat) : Int) > buf_len
  · rw [if_pos hc, if_pos hc]
  · rw [if_neg hc, if_neg hc]
    have hk := total_header_length_ge R hrem
    have hroom : 1 + (remaining_length_bytes R).length + R ≤ mem.length := by omega
    have hRdef : R = 2 + lwmqtt_strlen topic + payload.length + (if qos > 0 then 2 else 0) := by
      rw [← hR]; unfold lwmqtt_encode_publish_rem_len
      split_ifs <;> rfl
    generalize hH : lwmqtt_header_t.byte
      { retain := if retained then 1 else 0, qos := qos,
        dup := if dup then 1 else 0, type := LWMQTT_PUBLISH_PACKET } = H
    have hHlt : H < 256 := by rw [← hH]; exact header_byte_lt _
    conv_lhs => rw [← written_nil mem]
    rw [write_char_written mem [] 0 H rfl (by omega)]
    simp only [List.nil_append, Nat.mod_eq_of_lt hHlt]
    rw [encode_remaining_length_written mem [H] (0 + 1) R rfl,
      if_pos (by simp only [List.length_singleton]; omega)]
    simp only
    rw [write_string_written mem _ _ topic
      (by simp only [List.length_append, List.length_cons, List.length_nil])
      (by split_ifs at hRdef <;> omega)]
    simp only
    by_cases hq : qos > 0
    · simp only [hq, if_true] at hRdef ⊢
      rw [write_int_written mem _ _ _
        (by simp only [List.length_append, List.length_cons, List.length_nil, lwmqtt_strlen]; omega)
        (by omega)]
      simp only
      rw [memcpy_written mem payload _ _
        (by simp only [List.length_append, List.length_cons, List.length_nil, lwmqtt_strlen]; omega)
        (by omega)]
      simp only [Option.some.injEq, Prod.mk.injEq, true_and]
      constructor
      · congr 1
        simp [Nat.mod_mod_of_dvd]
        omega
      · congr 1; omega
    · simp only [hq, if_false] at hRdef ⊢
      rw [memcpy_written mem payload _ _
        (by simp only [List.length_append, List.length_cons, List.length_nil, lwmqtt_strlen]; omega)
        (by omega)]
      simp only [Option.some.injEq, Prod.mk.injEq, true_and]
      constructor
      · congr 1
        simp
      · congr 1; omega

/-! ## Reading a buffer of known shape -/

theorem written_self (out : List Nat) : written [] out = out := by
  simp [written]

theorem load_at (mem pre post : List Nat) (c : Nat) (ptr : Int)
    (hm : mem = pre ++ c :: post) (hp : ptr = (pre.length : Int)) : load mem ptr = some c := by
  subst hm hp
  rw [load_nat, List.getElem?_append_right (le_refl _)]
  simp

theorem read_char_at (mem pre post : List Nat) (c : Nat) (ptr : Int)
    (hm : mem = pre ++ c :: post) (hp : ptr = (pre.length : Int)) :
    lwmqtt_read_char mem ptr = some (c, ptr + 1) := by
  unfold lwmqtt_read_char
  rw [load_at mem pre post c ptr hm hp]

theorem read_int_at (mem pre post : List Nat) (a b : Nat) (ptr : Int)
    (hm : mem = pre ++ a :: b :: post) (hp : ptr = (pre.length : Int)) :
    lwmqtt_read_int mem ptr = some (256 * a + b, ptr + 2) := by
  unfold lwmqtt_read_int
  rw [read_char_at mem pre (b :: post) a ptr hm hp]
  simp only
  rw [read_char_at mem (pre ++ [a]) post b (ptr + 1) (by simp [hm]) (by simp [hp])]
  simp only [Option.some.injEq, Prod.mk.injEq, true_and]
  omega

theorem decode_remaining_length_at (ovf : Int) (mem pre post : List Nat) (n : Nat) (ptr : Int)
    (hn : n ≤ 268435455) (hm : mem = pre ++ (remaining_length_bytes n ++ post))
    (hp : ptr = (pre.length : Int)) :
    lwmqtt_decode_remaining_length ovf mem ptr =
      some (((remaining_length_bytes n).length : Int), (n : Int)) := by
  have h := decode_remaining_length_bytes ovf [] pre post n hn ptr hp
  rw [written_self] at h
  rw [hm]; exact h

theorem slice_at (mem pre mid post : List Nat) (hm : mem = pre ++ (mid ++ post)) (off len : Nat)
    (ho : off = pre.length) (hl : len = mid.length) : slice mem off len = mid := by
  subst hm ho hl
  simp [slice]

theorem header_of_byte (r q d t : Nat) (hr : r ≤ 1) (hq : q ≤ 3) (hd : d ≤ 1) (ht : t ≤ 15) :
    lwmqtt_header_t.of_byte (16 * t + 8 * d + 2 * q + r) =
      { retain := r, qos := q, dup := d, type := t } := by
  simp only [lwmqtt_header_t.of_byte, bitfield_get]
  norm_num
  refine ⟨?_, ?_, ?_, ?_⟩ <;> omega

theorem written_of_append (mem out rest : List Nat) (h : mem = out ++ rest) :
    written mem out = mem := by
  subst h
  simp [written]

/-- C3: with the declared capacity available, a representable remaining length, qos in
0..2, a 16-bit packet id and a topic of at most 65535 bytes, `lwmqtt_encode_publish`
returns Success whenever the capacity check passes, and whenever it returns Success the
remaining length is 2 + len(topic) + (2 if qos > 0) + payload_len and the buffer holds
exactly: the header byte 3*16 + dup*8 + qos*2 + retained, the remaining-length field
(the bytes `lwmqtt_encode_remaining_length` writes for that value), the topic length as
two big-endian bytes, the topic bytes, the packet id as two big-endian bytes exactly when
qos > 0, the payload bytes, and behind them the untouched rest of the buffer; the
returned length is 1 + (size of the remaining-length field) + remaining length. -/
theorem encode_publish_layout (mem : List Nat) (buf_len len : Int) (dup : Bool) (qos : Nat)
    (retained : Bool) (packet_id : Nat) (topic : lwmqtt_string_t) (payload : List Nat)
    (hmem : buf_len ≤ (mem.length : Int)) (hqos : qos ≤ 2) (hid : packet_id ≤ 65535)
    (htopic : lwmqtt_strlen topic ≤ 65535)
    (hrem : lwmqtt_encode_publish_rem_len qos topic payload ≤ 268435455) :
    (((lwmqtt_total_header_length (lwmqtt_encode_publish_rem_len qos topic payload)
        + lwmqtt_encode_publish_rem_len qos topic payload : Nat) : Int) ≤ buf_len →
      ∃ mem1 len1, lwmqtt_encode_publish mem buf_len len dup qos retained packet_id topic
        payload = some (LWMQTT_SUCCESS, mem1, len1)) ∧
    ∀ mem1 len1, lwmqtt_encode_publish mem buf_len len dup qos retained packet_id topic
        payload = some (LWMQTT_SUCCESS, mem1, len1) →
      lwmqtt_encode_publish_rem_len qos topic payload =
        2 + lwmqtt_strlen topic + (if qos > 0 then 2 else 0) + payload.length ∧
      ∃ rl : List Nat,
        lwmqtt_encode_remaining_length mem1 1 (lwmqtt_encode_publish_rem_len qos topic payload)
          = some (mem1, rl.length) ∧
        mem1 = [3 * 16 + dup.toNat * 8 + qos * 2 + retained.toNat] ++ rl
          ++ [lwmqtt_strlen topic / 256, lwmqtt_strlen topic % 256] ++ topic.content
          ++ (if qos > 0 then [packet_id / 256, packet_id % 256] else []) ++ payload
          ++ mem.drop (1 + rl.length + lwmqtt_encode_publish_rem_len qos topic payload) ∧
        len1 = ((1 + rl.length + lwmqtt_encode_publish_rem_len qos topic payload : Nat) : Int) := by
  have heq := encode_publish_eq mem buf_len len dup qos retained packet_id topic payload hmem hrem
  have hRdef : lwmqtt_encode_publish_rem_len qos topic payload =
      2 + lwmqtt_strlen topic + (if qos > 0 then 2 else 0) + payload.length := by
    simp only [lwmqtt_encode_publish_rem_len]
    split_ifs <;> omega
  have hH : lwmqtt_header_t.byte
      { retain := if retained then 1 else 0, qos := qos,
        dup := if dup then 1 else 0, type := LWMQTT_PUBLISH_PACKET } =
      3 * 16 + dup.toNat * 8 + qos * 2 + retained.toNat := by
    rw [header_byte_eq _ (by cases retained <;> simp) (by simp only; omega)
      (by cases dup <;> simp) (by simp [LWMQTT_PUBLISH_PACKET])]
    cases dup <;> cases retained <;> simp [LWMQTT_PUBLISH_PACKET] <;> omega
  rw [hH] at heq
  constructor
  · intro hcap
    rw [heq, if_neg (by omega)]
    exact ⟨_, _, rfl⟩
  · intro mem1 len1 hok
    rw [heq] at hok
    by_cases hc : ((lwmqtt_total_header_length (lwmqtt_encode_publish_rem_len qos topic payload)
        + lwmqtt_encode_publish_rem_len qos topic payload : Nat) : Int) > buf_len
    · rw [if_pos hc] at hok
      simp at hok
    rw [if_neg hc] at hok
    simp only [Option.some.injEq, Prod.mk.injEq, true_and] at hok
    obtain ⟨hm1, hl1⟩ := hok
    have e1 : lwmqtt_strlen topic / 256 % 256 = lwmqtt_strlen topic / 256 := by omega
    have e2 : packet_id % 65536 / 256 = packet_id / 256 := by omega
    rw [e1, e2] at hm1
    have hlen : ([3 * 16 + dup.toNat * 8 + qos * 2 + retained.toNat]
        ++ remaining_length_bytes (lwmqtt_encode_publish_rem_len qos topic payload)
        ++ [lwmqtt_strlen topic / 256, lwmqtt_strlen topic % 256] ++ topic.content
        ++ (if qos > 0 then [packet_id / 256, packet_id % 256] else []) ++ payload).length
        = 1 + (remaining_length_bytes (lwmqtt_encode_publish_rem_len qos topic payload)).length
          + lwmqtt_encode_publish_rem_len qos topic payload := by
      simp only [List.length_append, List.length_cons, List.length_nil, lwmqtt_strlen]
        at hRdef ⊢
      split_ifs at hRdef ⊢ <;> simp <;> omega
    have hlay : mem1 = [3 * 16 + dup.toNat * 8 + qos * 2 + retained.toNat]
        ++ remaining_length_bytes (lwmqtt_encode_publish_rem_len qos topic payload)
        ++ [lwmqtt_strlen topic / 256, lwmqtt_strlen topic % 256] ++ topic.content
        ++ (if qos > 0 then [packet_id / 256, packet_id % 256] else []) ++ payload
        ++ mem.drop (1 + (remaining_length_bytes
          (lwmqtt_encode_publish_rem_len qos topic payload)).length
          + lwmqtt_encode_publish_rem_len qos topic payload) := by
      rw [← hm1, ← hlen]
      rfl
    refine ⟨hRdef, remaining_length_bytes (lwmqtt_encode_publish_rem_len qos topic payload), ?_,
      hlay, hl1.symm⟩
    have hshape : mem1 = ([3 * 16 + dup.toNat * 8 + qos * 2 + retained.toNat]
        ++ remaining_length_bytes (lwmqtt_encode_publish_rem_len qos topic payload))
        ++ ([lwmqtt_strlen topic / 256, lwmqtt_strlen topic % 256] ++ topic.content
        ++ (if qos > 0 then [packet_id / 256, packet_id % 256] else []) ++ payload
        ++ mem.drop (1 + (remaining_length_bytes
          (lwmqtt_encode_publish_rem_len qos topic payload)).length
          + lwmqtt_encode_publish_rem_len qos topic payload)) := by
      rw [hlay]
      simp only [List.append_assoc]
    have hlen1 : 1 + (remaining_length_bytes
        (lwmqtt_encode_publish_rem_len qos topic payload)).length ≤ mem1.length := by
      rw [hshape]
      simp only [List.length_append, List.length_cons, List.length_nil]
      omega
    have h := encode_remaining_length_written mem1
      [3 * 16 + dup.toNat * 8 + qos * 2 + retained.toNat] 1
      (lwmqtt_encode_publish_rem_len qos topic payload) rfl
    rw [written_of_append mem1 _ _ (by rw [hshape]; simp only [List.append_assoc]; rfl),
      if_pos (by simpa using hlen1), written_of_append mem1 _ _ hshape] at h
    exact h

theorem encode_publish_layout_witness :
    lwmqtt_encode_publish_rem_len 1 (.c_string [97, 47, 98]) [1, 2, 3] =
        2 + lwmqtt_strlen (.c_string [97, 47, 98]) + (if 1 > 0 then 2 else 0)
          + [1, 2, 3].length ∧
      ∃ rl : List Nat,
        lwmqtt_encode_remaining_length
            [50, 10, 0, 3, 97, 47, 98, 0, 42, 1, 2, 3, 170, 170, 170, 170] 1
            (lwmqtt_encode_publish_rem_len 1 (.c_string [97, 47, 98]) [1, 2, 3])
          = some ([50, 10, 0, 3, 97, 47, 98, 0, 42, 1, 2, 3, 170, 170, 170, 170], rl.length) ∧
        [50, 10, 0, 3, 97, 47, 98, 0, 42, 1, 2, 3, 170, 170, 170, 170] =
          [3 * 16 + false.toNat * 8 + 1 * 2 + false.toNat] ++ rl
          ++ [lwmqtt_strlen (.c_string [97, 47, 98]) / 256,
              lwmqtt_strlen (.c_string [97, 47, 98]) % 256]
          ++ (lwmqtt_string_t.c_string [97, 47, 98]).content
          ++ (if 1 > 0 then [42 / 256, 42 % 256] else []) ++ [1, 2, 3]
          ++ (List.replicate 16 170).drop
            (1 + rl.length + lwmqtt_encode_publish_rem_len 1 (.c_string [97, 47, 98]) [1, 2, 3]) ∧
        (12 : Int) = ((1 + rl.length
          + lwmqtt_encode_publish_rem_len 1 (.c_string [97, 47, 98]) [1, 2, 3] : Nat) : Int) :=
  (encode_publish_layout (List.replicate 16 170) 16 0 false 1 false 42 (.c_string [97, 47, 98])
    [1, 2, 3] (by decide) (by decide) (by decide) (by decide) (by decide)).2
    [50, 10, 0, 3, 97, 47, 98, 0, 42, 1, 2, 3, 170, 170, 170, 170] 12 (by decide)

/-- Decoding a PUBLISH packet of known shape. -/
theorem decode_publish_bytes (ovf : Int) (out0 : publish_out) (buf_len : Int)
    (r q d tl idv : Nat) (tc payload : List Nat)
    (hr : r ≤ 1) (hq : q ≤ 3) (hd : d ≤ 1) (htl : tl = tc.length) (htl2 : tl ≤ 65535)
    (hid : idv ≤ 65535)
    (hrem : 2 + tl + (if q > 0 then 2 else 0) + payload.length ≤ 268435455) :
    lwmqtt_decode_publish ovf out0
      ([16 * 3 + 8 * d + 2 * q + r]
        ++ (remaining_length_bytes (2 + tl + (if q > 0 then 2 else 0) + payload.length)
        ++ ([tl / 256, tl % 256] ++ (tc
        ++ ((if q > 0 then [idv / 256, idv % 256] else []) ++ payload))))) buf_len =
      some (LWMQTT_SUCCESS,
        { dup := d == 1, qos := q, retained := r == 1,
          packet_id := (if q > 0 then idv else out0.packet_id),
          topic :=
            { len := (tl : Int)
              data := ((1 + (remaining_length_bytes
                (2 + tl + (if q > 0 then 2 else 0) + payload.length)).length + 2 : Nat) : Int) },
          payload := ((1 + (remaining_length_bytes
              (2 + tl + (if q > 0 then 2 else 0) + payload.length)).length + 2 + tl
              + (if q > 0 then 2 else 0) : Nat) : Int),
          payload_len := (payload.length : Int) }) := by
  generalize hR : 2 + tl + (if q > 0 then 2 else 0) + payload.length = R at hrem ⊢
  generalize hB : [16 * 3 + 8 * d + 2 * q + r] ++ (remaining_length_bytes R
        ++ ([tl / 256, tl % 256] ++ (tc
        ++ ((if q > 0 then [idv / 256, idv % 256] else []) ++ payload)))) = B
  generalize hK : (remaining_length_bytes R).length = K
  generalize hP : (if q > 0 then [idv / 256, idv % 256] else []) = P at hB
  have hPlen : P.length = if q > 0 then 2 else 0 := by
    rw [← hP]; split_ifs <;> rfl
  unfold lwmqtt_decode_publish
  rw [read_char_at B [] (remaining_length_bytes R ++ ([tl / 256, tl % 256] ++ (tc ++ (P ++ payload))))
    (16 * 3 + 8 * d + 2 * q + r) 0 (by rw [← hB]; rfl) rfl]
  simp only
  rw [header_of_byte r q d 3 hr hq hd (by omega)]
  simp only [LWMQTT_PUBLISH_PACKET, ne_eq, not_true_eq_false, if_false]
  rw [decode_remaining_length_at ovf B [16 * 3 + 8 * d + 2 * q + r]
    ([tl / 256, tl % 256] ++ (tc ++ (P ++ payload))) R (0 + 1) hrem
    (by rw [← hB]) (by simp)]
  simp only [hK]
  have hrd : lwmqtt_read_lp_string out0.topic B (0 + 1 + (K : Int)) (0 + 1 + (K : Int) + (R : Int))
      = some (true, { len := (tl : Int), data := ((1 + K + 2 : Nat) : Int) },
          ((1 + K + 2 + tl : Nat) : Int)) := by
    unfold lwmqtt_read_lp_string
    rw [if_pos (by omega)]
    rw [read_int_at B ([16 * 3 + 8 * d + 2 * q + r] ++ remaining_length_bytes R)
      (tc ++ (P ++ payload)) (tl / 256) (tl % 256) _
      (by rw [← hB]; simp only [List.append_assoc, List.cons_append, List.nil_append])
      (by simp only [List.length_append, List.length_cons, List.length_nil, hK]; push_cast; omega)]
    simp only
    have e : 256 * (tl / 256) + tl % 256 = tl := by omega
    rw [e, if_pos (by omega)]
    simp only [Option.some.injEq, Prod.mk.injEq, true_and, lwmqtt_lp_string_t.mk.injEq]
    constructor <;> (push_cast; omega)
  rw [hrd]
  have hend : ¬ ((0 : Int) + 1 + (K : Int) + (R : Int) - ((1 + K + 2 + tl : Nat) : Int) < 0) := by
    push_cast; omega
  simp only [Bool.not_true, Bool.false_or, decide_eq_true_eq, hend, if_false]
  by_cases hq0 : q > 0
  · simp only [hq0, if_true] at hPlen hR ⊢
    rw [if_pos hq0] at hP
    rw [read_int_at B ([16 * 3 + 8 * d + 2 * q + r] ++ remaining_length_bytes R
        ++ [tl / 256, tl % 256] ++ tc) payload (idv / 256) (idv % 256) _
      (by rw [← hB, ← hP]; simp only [List.append_assoc, List.cons_append, List.nil_append])
      (by simp only [List.length_append, List.length_cons, List.length_nil, hK]; push_cast; omega)]
    simp only [Option.some.injEq, Prod.mk.injEq, true_and]
    have e : (256 * (idv / 256) + idv % 256) % 65536 = idv := by omega
    rw [e]
    simp only [publish_out.mk.injEq, true_and]
    constructor <;> (push_cast; omega)
  · simp only [hq0, if_false] at hPlen hR ⊢
    simp only [Option.some.injEq, Prod.mk.injEq, true_and, publish_out.mk.injEq]
    constructor <;> (push_cast; omega)

theorem take_written (mem out : List Nat) : (written mem out).take out.length = out := by
  simp [written]

/-- C2: with the declared capacity available, qos in 0..2, a 16-bit packet id, a topic of
at most 65535 bytes and a representable remaining length, `lwmqtt_encode_publish` returns
Success whenever the capacity check passes, and whenever it returns Success with written
length len, `lwmqtt_decode_publish` on the len produced bytes (buf_len = len) returns
Success with the same dup, qos and retained, a topic view of the same length and bytes, a
payload view of the same length and bytes, and, when qos > 0, the same packet id. -/
theorem publish_round_trip (ovf : Int) (out0 : publish_out) (mem : List Nat)
    (buf_len len : Int) (dup : Bool) (qos : Nat) (retained : Bool) (packet_id : Nat)
    (topic : lwmqtt_string_t) (payload : List Nat)
    (hmem : buf_len ≤ (mem.length : Int)) (hqos : qos ≤ 2) (hid : packet_id ≤ 65535)
    (htopic : lwmqtt_strlen topic ≤ 65535)
    (hrem : lwmqtt_encode_publish_rem_len qos topic payload ≤ 268435455) :
    (((lwmqtt_total_header_length (lwmqtt_encode_publish_rem_len qos topic payload)
        + lwmqtt_encode_publish_rem_len qos topic payload : Nat) : Int) ≤ buf_len →
      ∃ mem1 len1, lwmqtt_encode_publish mem buf_len len dup qos retained packet_id topic
        payload = some (LWMQTT_SUCCESS, mem1, len1)) ∧
    ∀ mem1 len1, lwmqtt_encode_publish mem buf_len len dup qos retained packet_id topic
        payload = some (LWMQTT_SUCCESS, mem1, len1) →
      ∃ out : publish_out,
        lwmqtt_decode_publish ovf out0 (mem1.take len1.toNat) len1 = some (LWMQTT_SUCCESS, out) ∧
        out.dup = dup ∧ out.qos = qos ∧ out.retained = retained ∧
        out.topic.len = (lwmqtt_strlen topic : Int) ∧
        slice (mem1.take len1.toNat) out.topic.data.toNat out.topic.len.toNat = topic.content ∧
        out.payload_len = (payload.length : Int) ∧
        slice (mem1.take len1.toNat) out.payload.toNat out.payload_len.toNat = payload ∧
        (qos > 0 → out.packet_id = packet_id) := by
  have heq := encode_publish_eq mem buf_len len dup qos retained packet_id topic payload hmem hrem
  have hRdef : lwmqtt_encode_publish_rem_len qos topic payload =
      2 + lwmqtt_strlen topic + (if qos > 0 then 2 else 0) + payload.length := by
    simp only [lwmqtt_encode_publish_rem_len]
    split_ifs <;> omega
  constructor
  · intro hcap
    rw [heq, if_neg (by omega)]
    exact ⟨_, _, rfl⟩
  · intro mem1 len1 hok
    rw [heq] at hok
    by_cases hc : ((lwmqtt_total_header_length (lwmqtt_encode_publish_rem_len qos topic payload)
        + lwmqtt_encode_publish_rem_len qos topic payload : Nat) : Int) > buf_len
    · rw [if_pos hc] at hok
      simp at hok
    rw [if_neg hc] at hok
    simp only [Option.some.injEq, Prod.mk.injEq, true_and] at hok
    obtain ⟨hm1, hl1⟩ := hok
    rw [hRdef] at hm1 hl1 hrem
    have hH : lwmqtt_header_t.byte
        { retain := if retained then 1 else 0, qos := qos,
          dup := if dup then 1 else 0, type := LWMQTT_PUBLISH_PACKET } =
        16 * 3 + 8 * (if dup then 1 else 0) + 2 * qos + (if retained then 1 else 0) := by
      rw [header_byte_eq _ (by cases retained <;> simp) (by simp only; omega)
        (by cases dup <;> simp) (by simp [LWMQTT_PUBLISH_PACKET])]
      simp [LWMQTT_PUBLISH_PACKET]
    have e1 : lwmqtt_strlen topic / 256 % 256 = lwmqtt_strlen topic / 256 := by omega
    have e2 : packet_id % 65536 / 256 = packet_id / 256 := by omega
    rw [hH, e1, e2] at hm1
    generalize hK : (remaining_length_bytes
      (2 + lwmqtt_strlen topic + (if qos > 0 then 2 else 0) + payload.length)).length = K
      at hm1 hl1
    generalize hOUT : [16 * 3 + 8 * (if dup then 1 else 0) + 2 * qos + (if retained then 1 else 0)]
      ++ remaining_length_bytes
        (2 + lwmqtt_strlen topic + (if qos > 0 then 2 else 0) + payload.length)
      ++ [lwmqtt_strlen topic / 256, lwmqtt_strlen topic % 256] ++ topic.content
      ++ (if qos > 0 then [packet_id / 256, packet_id % 256] else []) ++ payload = OUT at hm1
    have hOUTlen : OUT.length = 1 + K + (2 + lwmqtt_strlen topic + (if qos > 0 then 2 else 0)
        + payload.length) := by
      rw [← hOUT, ← hK]
      simp only [List.length_append, List.length_cons, List.length_nil, lwmqtt_strlen]
      split_ifs <;> simp <;> omega
    have htake : mem1.take len1.toNat = OUT := by
      rw [← hm1, ← hl1, Int.toNat_ofNat, ← hOUTlen, take_written]
    rw [htake]
    have hdec := decode_publish_bytes ovf out0 len1 (if retained then 1 else 0) qos
      (if dup then 1 else 0) (lwmqtt_strlen topic) packet_id topic.content payload
      (by split_ifs <;> omega) (by omega) (by split_ifs <;> omega) rfl htopic hid hrem
    have hOUT2 : [16 * 3 + 8 * (if dup then 1 else 0) + 2 * qos + (if retained then 1 else 0)]
        ++ (remaining_length_bytes
          (2 + lwmqtt_strlen topic + (if qos > 0 then 2 else 0) + payload.length)
        ++ ([lwmqtt_strlen topic / 256, lwmqtt_strlen topic % 256] ++ (topic.content
        ++ ((if qos > 0 then [packet_id / 256, packet_id % 256] else []) ++ payload)))) = OUT := by
      rw [← hOUT]; simp only [List.append_assoc]
    rw [hOUT2, hK] at hdec
    refine ⟨_, hdec, ?_, rfl, ?_, rfl, ?_, rfl, ?_, ?_⟩
    · cases dup <;> simp
    · cases retained <;> simp
    · simp only [Int.toNat_ofNat]
      exact slice_at OUT ([16 * 3 + 8 * (if dup then 1 else 0) + 2 * qos
          + (if retained then 1 else 0)]
        ++ remaining_length_bytes
          (2 + lwmqtt_strlen topic + (if qos > 0 then 2 else 0) + payload.length)
        ++ [lwmqtt_strlen topic / 256, lwmqtt_strlen topic % 256]) topic.content
        ((if qos > 0 then [packet_id / 256, packet_id % 256] else []) ++ payload)
        (by rw [← hOUT]; simp only [List.append_assoc]) _ _
        (by simp only [List.length_append, List.length_cons, List.length_nil, hK])
        rfl
    · simp only [Int.toNat_ofNat]
      exact slice_at OUT ([16 * 3 + 8 * (if dup then 1 else 0) + 2 * qos
          + (if retained then 1 else 0)]
        ++ remaining_length_bytes
          (2 + lwmqtt_strlen topic + (if qos > 0 then 2 else 0) + payload.length)
        ++ [lwmqtt_strlen topic / 256, lwmqtt_strlen topic % 256] ++ topic.content
        ++ (if qos > 0 then [packet_id / 256, packet_id % 256] else [])) payload []
        (by rw [← hOUT]; simp only [List.append_assoc, List.append_nil]) _ _
        (by
          simp only [List.length_append, List.length_cons, List.length_nil, hK]
          simp only [lwmqtt_strlen]
          split_ifs <;> simp)
        rfl
    · intro hq0
      simp only [hq0, if_true]

theorem publish_round_trip_witness :
    ∃ out : publish_out,
      lwmqtt_decode_publish (-3)
          { dup := true, qos := 0, retained := true, packet_id := 0,
            topic := { len := 0, data := 0 }, payload := 0, payload_len := 0 }
          (([50, 10, 0, 3, 97, 47, 98, 0, 42, 1, 2, 3, 170, 170, 170, 170] : List Nat).take
            (12 : Int).toNat) 12 = some (LWMQTT_SUCCESS, out) ∧
        out.dup = false ∧ out.qos = 1 ∧ out.retained = false ∧
        out.topic.len = (lwmqtt_strlen (.c_string [97, 47, 98]) : Int) ∧
        slice (([50, 10, 0, 3, 97, 47, 98, 0, 42, 1, 2, 3, 170, 170, 170, 170] : List Nat).take
            (12 : Int).toNat) out.topic.data.toNat out.topic.len.toNat
          = (lwmqtt_string_t.c_string [97, 47, 98]).content ∧
        out.payload_len = (([1, 2, 3] : List Nat).length : Int) ∧
        slice (([50, 10, 0, 3, 97, 47, 98, 0, 42, 1, 2, 3, 170, 170, 170, 170] : List Nat).take
            (12 : Int).toNat) out.payload.toNat out.payload_len.toNat = [1, 2, 3] ∧
        (1 > 0 → out.packet_id = 42) :=
  (publish_round_trip (-3)
    { dup := true, qos := 0, retained := true, packet_id := 0,
      topic := { len := 0, data := 0 }, payload := 0, payload_len := 0 }
    (List.replicate 16 170) 16 0 false 1 false 42 (.c_string [97, 47, 98])
    [1, 2, 3] (by decide) (by decide) (by decide) (by decide) (by decide)).2
    [50, 10, 0, 3, 97, 47, 98, 0, 42, 1, 2, 3, 170, 170, 170, 170] 12 (by decide)

/-! ## CONNECT -/

theorem connect_flags_byte_lt (f : lwmqtt_connect_flags_t) : f.byte < 256 := by
  simp only [lwmqtt_connect_flags_t.byte, bitfield_pack]
  norm_num
  omega

theorem connect_flags_username (options : lwmqtt_options_t) (will : Option lwmqtt_will_t) :
    (lwmqtt_encode_connect_flags options will).username =
      if options.username.has_c_string || options.username.has_lp_data then 1 else 0 := by
  unfold lwmqtt_encode_connect_flags
  cases will <;> simp only <;> split_ifs <;> rfl

theorem connect_flags_password (options : lwmqtt_options_t) (will : Option lwmqtt_will_t) :
    (lwmqtt_encode_connect_flags options will).password =
      if options.username.has_c_string || options.username.has_lp_data then
        (if options.password.has_c_string || options.password.has_lp_data then 1 else 0)
      else 0 := by
  unfold lwmqtt_encode_connect_flags
  cases will <;> simp only <;> split_ifs <;> rfl

theorem connect_rem_len_eq (options : lwmqtt_options_t) (will : Option lwmqtt_will_t) :
    lwmqtt_encode_connect_rem_len options will =
      10 + (2 + lwmqtt_strlen options.client_id) + (connect_will_bytes will).length
        + (connect_credential_bytes options).length := by
  unfold lwmqtt_encode_connect_rem_len connect_credential_bytes
  cases will <;>
    simp only [connect_will_bytes, wire_string, lwmqtt_strlen, List.length_append,
      List.length_cons, List.length_nil] <;>
    split_ifs <;> simp <;> omega

theorem encode_connect_write_will_written (mem out : List Nat) (ptr : Nat)
    (will : Option lwmqtt_will_t) (hp : ptr = out.length)
    (hroom : ptr + (connect_will_bytes will).length ≤ mem.length) :
    lwmqtt_encode_connect_write_will (written mem out) ptr will =
      some (written mem (out ++ connect_will_bytes will),
        ptr + (connect_will_bytes will).length) := by
  cases will with
  | none => simp [lwmqtt_encode_connect_write_will, connect_will_bytes]
  | some w =>
    simp only [connect_will_bytes, wire_string, List.length_append, List.length_cons,
      List.length_nil] at hroom ⊢
    simp only [lwmqtt_encode_connect_write_will, Option.bind_eq_bind, Option.pure_def]
    rw [write_string_written mem out ptr w.topic hp (by simp only [lwmqtt_strlen]; omega)]
    simp only [Option.some_bind]
    rw [write_int_written mem _ _ _
      (by simp only [List.length_append, List.length_cons, List.length_nil, lwmqtt_strlen]; omega)
      (by simp only [lwmqtt_strlen]; omega)]
    simp only [Option.some_bind]
    rw [memcpy_written mem w.payload _ _
      (by simp only [List.length_append, List.length_cons, List.length_nil, lwmqtt_strlen]; omega)
      (by simp only [lwmqtt_strlen]; omega)]
    simp only [Option.some_bind, Option.some.injEq, Prod.mk.injEq, List.append_assoc,
      lwmqtt_strlen, true_and]
    omega

theorem encode_connect_write_credentials_written (mem out : List Nat) (ptr : Nat)
    (options : lwmqtt_options_t) (will : Option lwmqtt_will_t) (hp : ptr = out.length)
    (hroom : ptr + (connect_credential_bytes options).length ≤ mem.length) :
    lwmqtt_encode_connect_write_credentials (written mem out) ptr
        (lwmqtt_encode_connect_flags options will) options =
      some (written mem (out ++ connect_credential_bytes options),
        ptr + (connect_credential_bytes options).length) := by
  unfold lwmqtt_encode_connect_write_credentials
  rw [connect_flags_username, connect_flags_password]
  unfold connect_credential_bytes at hroom ⊢
  by_cases hu : (options.username.has_c_string || options.username.has_lp_data) = true
  · simp only [hu, if_true] at hroom ⊢
    by_cases hpw : (options.password.has_c_string || options.password.has_lp_data) = true
    · simp only [hpw, if_true, wire_string, List.length_append, List.length_cons,
        List.length_nil] at hroom ⊢
      simp only [Option.bind_eq_bind, Option.pure_def, Nat.one_mod, ne_eq, one_ne_zero,
        not_false_eq_true, if_true]
      rw [write_string_written mem out ptr options.username hp
        (by simp only [lwmqtt_strlen]; omega)]
      simp only [Option.some_bind]
      rw [write_string_written mem _ _ options.password
        (by simp only [List.length_append, List.length_cons, List.length_nil, lwmqtt_strlen]; omega)
        (by simp only [lwmqtt_strlen]; omega)]
      simp only [Option.some.injEq, Prod.mk.injEq, List.append_assoc, lwmqtt_strlen, true_and]
      omega
    · simp only [hpw, Bool.false_eq_true, if_false, wire_string, List.length_append,
        List.length_cons, List.length_nil, List.append_nil] at hroom ⊢
      simp only [Option.bind_eq_bind, Option.pure_def, Nat.one_mod, ne_eq, one_ne_zero,
        not_false_eq_true, if_true, Nat.zero_mod, not_true_eq_false, if_false]
      rw [write_string_written mem out ptr options.username hp
        (by simp only [lwmqtt_strlen]; omega)]
      simp only [Option.some_bind, Option.some.injEq, Prod.mk.injEq, List.append_assoc,
        lwmqtt_strlen, true_and]
      omega
  · simp only [hu, if_false, List.append_nil, List.length_nil, Nat.add_zero]
    simp

/-- What the writes of `lwmqtt_encode_connect` produce when the buffer has room for them. -/
theorem encode_connect_write_eq (mem : List Nat) (options : lwmqtt_options_t)
    (will : Option lwmqtt_will_t)
    (hroom : 1 + (remaining_length_bytes (lwmqtt_encode_connect_rem_len options will)).length
      + lwmqtt_encode_connect_rem_len options will ≤ mem.length) :
    lwmqtt_encode_connect_write mem (lwmqtt_encode_connect_rem_len options will) options will =
      some (written mem
          ([16] ++ remaining_length_bytes (lwmqtt_encode_connect_rem_len options will)
            ++ [0, 4, 77, 81, 84, 84] ++ [4]
            ++ [(lwmqtt_encode_connect_flags options will).byte]
            ++ [options.keep_alive / 256 % 256, options.keep_alive % 256]
            ++ wire_string options.client_id.content
            ++ connect_will_bytes will ++ connect_credential_bytes options),
        1 + (remaining_length_bytes (lwmqtt_encode_connect_rem_len options will)).length
          + lwmqtt_encode_connect_rem_len options will) := by
  have hR := connect_rem_len_eq options will
  generalize lwmqtt_encode_connect_rem_len options will = R at hR hroom ⊢
  generalize hK : (remaining_length_bytes R).length = K at hroom
  simp only [lwmqtt_strlen] at hR
  unfold lwmqtt_encode_connect_write
  simp only [Option.bind_eq_bind, Option.pure_def]
  conv_lhs => rw [← written_nil mem]
  have hH : lwmqtt_header_t.byte { retain := 0, qos := 0, dup := 0, type := LWMQTT_CONNECT_PACKET }
      = 16 := by decide
  have hF := connect_flags_byte_lt (lwmqtt_encode_connect_flags options will)
  rw [hH, write_char_written mem [] 0 16 rfl (by omega)]
  simp only [Option.some_bind, List.nil_append]
  rw [encode_remaining_length_written mem [16 % 256] (0 + 1) R rfl,
    if_pos (by simp only [List.length_singleton]; omega)]
  simp only [Option.some_bind, hK]
  rw [write_c_string_written mem _ _ [77, 81, 84, 84]
    (by simp only [List.length_append, List.length_cons, List.length_nil, hK, lwmqtt_strlen,
      wire_string])
    (by simp only [List.length_append, List.length_cons, List.length_nil, hK, lwmqtt_strlen,
      wire_string]; omega)]
  simp only [Option.some_bind]
  rw [write_char_written mem _ _ 4
    (by simp only [List.length_append, List.length_cons, List.length_nil, hK, lwmqtt_strlen,
      wire_string])
    (by simp only [List.length_append, List.length_cons, List.length_nil, hK, lwmqtt_strlen,
      wire_string]; omega)]
  simp only [Option.some_bind]
  rw [write_char_written mem _ _ _
    (by simp only [List.length_append, List.length_cons, List.length_nil, hK, lwmqtt_strlen,
      wire_string])
    (by simp only [List.length_append, List.length_cons, List.length_nil, hK, lwmqtt_strlen,
      wire_string]; omega)]
  simp only [Option.some_bind]
  rw [write_int_written mem _ _ _
    (by simp only [List.length_append, List.length_cons, List.length_nil, hK, lwmqtt_strlen,
      wire_string])
    (by simp only [List.length_append, List.length_cons, List.length_nil, hK, lwmqtt_strlen,
      wire_string]; omega)]
  simp only [Option.some_bind]
  rw [write_string_written mem _ _ options.client_id
    (by simp only [List.length_append, List.length_cons, List.length_nil, hK, lwmqtt_strlen,
      wire_string])
    (by simp only [List.length_append, List.length_cons, List.length_nil, hK, lwmqtt_strlen,
      wire_string]; omega)]
  simp only [Option.some_bind]
  rw [encode_connect_write_will_written mem _ _ will
    (by simp only [List.length_append, List.length_cons, List.length_nil, hK, lwmqtt_strlen,
      wire_string]; omega)
    (by simp only [List.length_append, List.length_cons, List.length_nil, hK, lwmqtt_strlen,
      wire_string]; omega)]
  simp only [Option.some_bind]
  rw [encode_connect_write_credentials_written mem _ _ options will
    (by simp only [List.length_append, List.length_cons, List.length_nil, hK, lwmqtt_strlen,
      wire_string]; omega)
        (by simp only [List.length_append, List.length_cons, List.length_nil, hK, lwmqtt_strlen,
          wire_string]; omega)]
  simp only [Option.some.injEq, Prod.mk.injEq, wire_string, List.length_cons, List.length_nil,
    Nat.mod_eq_of_lt hF, lwmqtt_strlen]
  constructor
  · rfl
  · omega

/-- What `lwmqtt_encode_connect` does when the declared capacity is available and the
remaining length is representable. -/
theorem encode_connect_eq (mem : List Nat) (buf_len len : Int) (options : lwmqtt_options_t)
    (will : Option lwmqtt_will_t) (hmem : buf_len ≤ (mem.length : Int))
    (hrem : lwmqtt_encode_connect_rem_len options will ≤ 268435455) :
    lwmqtt_encode_connect mem buf_len len options will =
      if ((lwmqtt_total_header_length (lwmqtt_encode_connect_rem_len options will)
          + lwmqtt_encode_connect_rem_len options will : Nat) : Int) > buf_len then
        some (LWMQTT_BUFFER_TOO_SHORT_ERROR, mem, len)
      else
        some (LWMQTT_SUCCESS,
          written mem
            ([16] ++ remaining_length_bytes (lwmqtt_encode_connect_rem_len options will)
              ++ [0, 4, 77, 81, 84, 84] ++ [4]
              ++ [(lwmqtt_encode_connect_flags options will).byte]
              ++ [options.keep_alive / 256 % 256, options.keep_alive % 256]
              ++ wire_string options.client_id.content
              ++ connect_will_bytes will ++ connect_credential_bytes options),
          ((1 + (remaining_length_bytes (lwmqtt_encode_connect_rem_len options will)).length
            + lwmqtt_encode_connect_rem_len options will : Nat) : Int)) := by
  unfold lwmqtt_encode_connect
  simp only
  by_cases hc : ((lwmqtt_total_header_length (lwmqtt_encode_connect_rem_len options will)
      + lwmqtt_encode_connect_rem_len options will : Nat) : Int) > buf_len
  · rw [if_pos hc, if_pos hc]
  · rw [if_neg hc, if_neg hc]
    have hk := total_header_length_ge _ hrem
    rw [encode_connect_write_eq mem options will (by omega)]

theorem connect_rem_len_formula (options : lwmqtt_options_t) (will : Option lwmqtt_will_t) :
    lwmqtt_encode_connect_rem_len options will =
      10 + 2 + lwmqtt_strlen options.client_id
        + will.elim 0 (fun w => 2 + lwmqtt_strlen w.topic + 2 + w.payload.length)
        + (if options.username.has_c_string || options.username.has_lp_data then
            2 + lwmqtt_strlen options.username else 0)
        + (if (options.username.has_c_string || options.username.has_lp_data)
              && (options.password.has_c_string || options.password.has_lp_data) then
            2 + lwmqtt_strlen options.password else 0) := by
  unfold lwmqtt_encode_connect_rem_len
  cases will <;> simp only [Option.elim] <;>
    cases (options.username.has_c_string || options.username.has_lp_data) <;>
    cases (options.password.has_c_string || options.password.has_lp_data) <;>
    simp <;> omega

theorem connect_rem_len_le (options : lwmqtt_options_t) (will : Option lwmqtt_will_t)
    (hcid : lwmqtt_strlen options.client_id ≤ 65535)
    (huser : lwmqtt_strlen options.username ≤ 65535)
    (hpass : lwmqtt_strlen options.password ≤ 65535)
    (hwill : ∀ w, will = some w → lwmqtt_strlen w.topic ≤ 65535 ∧ w.payload.length ≤ 65535) :
    lwmqtt_encode_connect_rem_len options will ≤ 268435455 := by
  rw [connect_rem_len_formula]
  cases will with
  | none => simp only [Option.elim]; split_ifs <;> omega
  | some w =>
    have := hwill w rfl
    simp only [Option.elim]; split_ifs <;> omega

/-- The shape of the buffer after a successful `lwmqtt_encode_connect`. -/
theorem encode_connect_success (mem : List Nat) (buf_len len : Int) (options : lwmqtt_options_t)
    (will : Option lwmqtt_will_t) (hmem : buf_len ≤ (mem.length : Int))
    (hrem : lwmqtt_encode_connect_rem_len options will ≤ 268435455)
    (mem1 : List Nat) (len1 : Int)
    (hok : lwmqtt_encode_connect mem buf_len len options will = some (LWMQTT_SUCCESS, mem1, len1)) :
    mem1 = [16] ++ remaining_length_bytes (lwmqtt_encode_connect_rem_len options will)
        ++ [0, 4, 77, 81, 84, 84] ++ [4] ++ [(lwmqtt_encode_connect_flags options will).byte]
        ++ ([options.keep_alive / 256 % 256, options.keep_alive % 256]
          ++ wire_string options.client_id.content
          ++ connect_will_bytes will ++ connect_credential_bytes options
          ++ mem.drop (1 + (remaining_length_bytes
            (lwmqtt_encode_connect_rem_len options will)).length
            + lwmqtt_encode_connect_rem_len options will)) ∧
      lwmqtt_encode_remaining_length mem1 1 (lwmqtt_encode_connect_rem_len options will) =
        some (mem1, (remaining_length_bytes (lwmqtt_encode_connect_rem_len options will)).length) ∧
      len1 = ((1 + (remaining_length_bytes (lwmqtt_encode_connect_rem_len options will)).length
        + lwmqtt_encode_connect_rem_len options will : Nat) : Int) := by
  rw [encode_connect_eq mem buf_len len options will hmem hrem] at hok
  by_cases hc : ((lwmqtt_total_header_length (lwmqtt_encode_connect_rem_len options will)
      + lwmqtt_encode_connect_rem_len options will : Nat) : Int) > buf_len
  · rw [if_pos hc] at hok
    simp at hok
  rw [if_neg hc] at hok
  simp only [Option.some.injEq, Prod.mk.injEq, true_and] at hok
  obtain ⟨hm1, hl1⟩ := hok
  have hR := connect_rem_len_eq options will
  have hlay : mem1 = [16] ++ remaining_length_bytes (lwmqtt_encode_connect_rem_len options will)
        ++ [0, 4, 77, 81, 84, 84] ++ [4] ++ [(lwmqtt_encode_connect_flags options will).byte]
        ++ ([options.keep_alive / 256 % 256, options.keep_alive % 256]
          ++ wire_string options.client_id.content
          ++ connect_will_bytes will ++ connect_credential_bytes options
          ++ mem.drop (1 + (remaining_length_bytes
            (lwmqtt_encode_connect_rem_len options will)).length
            + lwmqtt_encode_connect_rem_len options will)) := by
    rw [← hm1]
    unfold written
    simp only [List.append_assoc]
    congr 9
    simp only [List.length_append, List.length_cons, List.length_nil, wire_string]
    simp only [lwmqtt_strlen] at hR
    congr 1
    omega
  refine ⟨hlay, ?_, hl1.symm⟩
  have hlen1 : 1 + (remaining_length_bytes
      (lwmqtt_encode_connect_rem_len options will)).length ≤ mem1.length := by
    rw [hlay]
    simp only [List.length_append, List.length_cons, List.length_nil]
    omega
  have h := encode_remaining_length_written mem1 [16] 1
    (lwmqtt_encode_connect_rem_len options will) rfl
  rw [written_of_append mem1 _ _ (by rw [hlay]; simp only [List.append_assoc]; rfl),
    if_pos (by simpa using hlen1),
    written_of_append mem1 _ _ (by rw [hlay]; simp only [List.append_assoc]; rfl)] at h
  exact h

theorem eq_append_drop (l pre rest : List Nat) (h : l = pre ++ rest) :
    l = pre ++ l.drop pre.length := by
  subst h
  simp

/-- C4: with the declared capacity available and every string and the will payload at most
65535 bytes long, `lwmqtt_encode_connect` returns Success whenever the capacity check
passes, and whenever it returns Success the remaining length is 10 + 2 + len(client_id)
+ (2 + len(will topic) + 2 + len(will payload) if a will is given) + (2 + len(username)
if a username is present) + (2 + len(password) if username and password are present),
the first byte written is 0x10, the bytes behind it are the remaining-length field for
that value (what `lwmqtt_encode_remaining_length` writes), and the returned length is
1 + (size of that field) + remaining length. -/
theorem encode_connect_header_and_length (mem : List Nat) (buf_len len : Int)
    (options : lwmqtt_options_t) (will : Option lwmqtt_will_t)
    (hmem : buf_len ≤ (mem.length : Int))
    (hcid : lwmqtt_strlen options.client_id ≤ 65535)
    (huser : lwmqtt_strlen options.username ≤ 65535)
    (hpass : lwmqtt_strlen options.password ≤ 65535)
    (hwill : ∀ w, will = some w → lwmqtt_strlen w.topic ≤ 65535 ∧ w.payload.length ≤ 65535) :
    (((lwmqtt_total_header_length (lwmqtt_encode_connect_rem_len options will)
        + lwmqtt_encode_connect_rem_len options will : Nat) : Int) ≤ buf_len →
      ∃ mem1 len1, lwmqtt_encode_connect mem buf_len len options will
        = some (LWMQTT_SUCCESS, mem1, len1)) ∧
    ∀ mem1 len1, lwmqtt_encode_connect mem buf_len len options will
        = some (LWMQTT_SUCCESS, mem1, len1) →
      lwmqtt_encode_connect_rem_len options will =
        10 + 2 + lwmqtt_strlen options.client_id
          + will.elim 0 (fun w => 2 + lwmqtt_strlen w.topic + 2 + w.payload.length)
          + (if options.username.has_c_string || options.username.has_lp_data then
              2 + lwmqtt_strlen options.username else 0)
          + (if (options.username.has_c_string || options.username.has_lp_data)
                && (options.password.has_c_string || options.password.has_lp_data) then
              2 + lwmqtt_strlen options.password else 0) ∧
      ∃ rl rest : List Nat,
        mem1 = [0x10] ++ rl ++ rest ∧
        lwmqtt_encode_remaining_length mem1 1 (lwmqtt_encode_connect_rem_len options will)
          = some (mem1, rl.length) ∧
        len1 = ((1 + rl.length + lwmqtt_encode_connect_rem_len options will : Nat) : Int) := by
  have hrem := connect_rem_len_le options will hcid huser hpass hwill
  constructor
  · intro hcap
    rw [encode_connect_eq mem buf_len len options will hmem hrem, if_neg (by omega)]
    exact ⟨_, _, rfl⟩
  · intro mem1 len1 hok
    obtain ⟨hlay, hrl, hl1⟩ := encode_connect_success mem buf_len len options will hmem hrem
      mem1 len1 hok
    refine ⟨connect_rem_len_formula options will,
      remaining_length_bytes (lwmqtt_encode_connect_rem_len options will),
      mem1.drop ([0x10] ++ remaining_length_bytes
        (lwmqtt_encode_connect_rem_len options will)).length, ?_, hrl, hl1⟩
    exact eq_append_drop mem1 _ _ (by rw [hlay]; simp only [List.append_assoc]; rfl)

theorem encode_connect_header_and_length_witness :
    lwmqtt_encode_connect_rem_len connect_example_options none = 15 ∧
      ∃ rl rest : List Nat,
        [16, 15, 0, 4, 77, 81, 84, 84, 4, 2, 0, 60, 0, 3, 97, 98, 99, 170, 170, 170]
          = [0x10] ++ rl ++ rest ∧
        lwmqtt_encode_remaining_length
            [16, 15, 0, 4, 77, 81, 84, 84, 4, 2, 0, 60, 0, 3, 97, 98, 99, 170, 170, 170] 1
            (lwmqtt_encode_connect_rem_len connect_example_options none)
          = some ([16, 15, 0, 4, 77, 81, 84, 84, 4, 2, 0, 60, 0, 3, 97, 98, 99, 170, 170, 170],
              rl.length) ∧
        (17 : Int) = ((1 + rl.length
          + lwmqtt_encode_connect_rem_len connect_example_options none : Nat) : Int) :=
  (encode_connect_header_and_length (List.replicate 20 170) 20 0 connect_example_options none
    (by decide) (by decide) (by decide) (by decide) (by intro w h; cases h)).2
    [16, 15, 0, 4, 77, 81, 84, 84, 4, 2, 0, 60, 0, 3, 97, 98, 99, 170, 170, 170] 17 (by decide)

theorem connect_flags_byte_eq (options : lwmqtt_options_t) (will : Option lwmqtt_will_t)
    (hwq : ∀ w, will = some w → w.qos ≤ 2) :
    (lwmqtt_encode_connect_flags options will).byte =
      128 * (options.username.has_c_string || options.username.has_lp_data).toNat
        + 64 * ((options.username.has_c_string || options.username.has_lp_data)
            && (options.password.has_c_string || options.password.has_lp_data)).toNat
        + 32 * will.elim 0 (fun w => w.retained.toNat)
        + 8 * will.elim 0 (fun w => w.qos)
        + 4 * will.elim 0 (fun _ => 1)
        + 2 * options.clean_session.toNat := by
  unfold lwmqtt_encode_connect_flags
  cases will with
  | none =>
    cases (options.username.has_c_string || options.username.has_lp_data) <;>
      cases (options.password.has_c_string || options.password.has_lp_data) <;>
      cases options.clean_session <;>
      simp [lwmqtt_connect_flags_t.byte, bitfield_pack]
  | some w =>
    have hq := hwq w rfl
    obtain ⟨wt, wp, wq, wr⟩ := w
    simp only at hq
    cases (options.username.has_c_string || options.username.has_lp_data) <;>
      cases (options.password.has_c_string || options.password.has_lp_data) <;>
      cases options.clean_session <;> cases wr <;>
      simp [lwmqtt_connect_flags_t.byte, bitfield_pack] <;> omega

theorem encode_connect_password_ignored (mem : List Nat) (buf_len len : Int)
    (options : lwmqtt_options_t) (will : Option lwmqtt_will_t)
    (hu : (options.username.has_c_string || options.username.has_lp_data) = false) :
    lwmqtt_encode_connect mem buf_len len options will =
      lwmqtt_encode_connect mem buf_len len { options with password := .null } will := by
  have h1 : lwmqtt_encode_connect_rem_len { options with password := .null } will =
      lwmqtt_encode_connect_rem_len options will := by
    simp only [lwmqtt_encode_connect_rem_len, hu, Bool.false_eq_true, if_false]
  have h2 : lwmqtt_encode_connect_flags { options with password := .null } will =
      lwmqtt_encode_connect_flags options will := by
    simp only [lwmqtt_encode_connect_flags, hu, Bool.false_eq_true, if_false]
  have h3 : ∀ m p, lwmqtt_encode_connect_write_credentials m p
      (lwmqtt_encode_connect_flags options will) { options with password := .null } =
      lwmqtt_encode_connect_write_credentials m p
        (lwmqtt_encode_connect_flags options will) options := by
    intro m p
    unfold lwmqtt_encode_connect_write_credentials
    rw [connect_flags_username, hu]
    simp
  unfold lwmqtt_encode_connect lwmqtt_encode_connect_write
  simp only [h1, h2, h3]

/-- C5: with the declared capacity available, every string and the will payload at most
65535 bytes long and a will qos in 0..2, `lwmqtt_encode_connect` returns Success whenever
the capacity check passes; whenever it returns Success the buffer holds the header byte,
the remaining-length field, the protocol name, the version byte 4 and then the
connect-flags byte 128*u + 64*(u and p) + 32*will_retain + 8*will_qos + 4*will_present
+ 2*clean_session, where u and p say whether username and password are present and the
will fields are 0 without a will; and when the username is absent the call does exactly
what it does for the same options without the password. -/
theorem encode_connect_flags_byte (mem : List Nat) (buf_len len : Int)
    (options : lwmqtt_options_t) (will : Option lwmqtt_will_t)
    (hmem : buf_len ≤ (mem.length : Int))
    (hcid : lwmqtt_strlen options.client_id ≤ 65535)
    (huser : lwmqtt_strlen options.username ≤ 65535)
    (hpass : lwmqtt_strlen options.password ≤ 65535)
    (hwill : ∀ w, will = some w → lwmqtt_strlen w.topic ≤ 65535 ∧ w.payload.length ≤ 65535)
    (hwq : ∀ w, will = some w → w.qos ≤ 2) :
    (((lwmqtt_total_header_length (lwmqtt_encode_connect_rem_len options will)
        + lwmqtt_encode_connect_rem_len options will : Nat) : Int) ≤ buf_len →
      ∃ mem1 len1, lwmqtt_encode_connect mem buf_len len options will
        = some (LWMQTT_SUCCESS, mem1, len1)) ∧
    (∀ mem1 len1, lwmqtt_encode_connect mem buf_len len options will
        = some (LWMQTT_SUCCESS, mem1, len1) →
      ∃ rl rest : List Nat,
        lwmqtt_encode_remaining_length mem1 1 (lwmqtt_encode_connect_rem_len options will)
          = some (mem1, rl.length) ∧
        mem1 = [0x10] ++ rl ++ [0, 4, 77, 81, 84, 84] ++ [4]
          ++ [128 * (options.username.has_c_string || options.username.has_lp_data).toNat
            + 64 * ((options.username.has_c_string || options.username.has_lp_data)
                && (options.password.has_c_string || options.password.has_lp_data)).toNat
            + 32 * will.elim 0 (fun w => w.retained.toNat)
            + 8 * will.elim 0 (fun w => w.qos)
            + 4 * will.elim 0 (fun _ => 1)
            + 2 * options.clean_session.toNat]
          ++ rest) ∧
    ((options.username.has_c_string || options.username.has_lp_data) = false →
      lwmqtt_encode_connect mem buf_len len options will =
        lwmqtt_encode_connect mem buf_len len { options with password := .null } will) := by
  have hrem := connect_rem_len_le options will hcid huser hpass hwill
  refine ⟨?_, ?_, encode_connect_password_ignored mem buf_len len options will⟩
  · intro hcap
    rw [encode_connect_eq mem buf_len len options will hmem hrem, if_neg (by omega)]
    exact ⟨_, _, rfl⟩
  · intro mem1 len1 hok
    obtain ⟨hlay, hrl, -⟩ := encode_connect_success mem buf_len len options will hmem hrem
      mem1 len1 hok
    rw [connect_flags_byte_eq options will hwq] at hlay
    exact ⟨_, _, hrl, hlay⟩

theorem encode_connect_flags_byte_witness :
    (∃ rl rest : List Nat,
      lwmqtt_encode_remaining_length
          [16, 15, 0, 4, 77, 81, 84, 84, 4, 2, 0, 60, 0, 3, 97, 98, 99, 170, 170, 170] 1
          (lwmqtt_encode_connect_rem_len connect_example_password_only none)
        = some ([16, 15, 0, 4, 77, 81, 84, 84, 4, 2, 0, 60, 0, 3, 97, 98, 99, 170, 170, 170],
            rl.length) ∧
      [16, 15, 0, 4, 77, 81, 84, 84, 4, 2, 0, 60, 0, 3, 97, 98, 99, 170, 170, 170]
        = [0x10] ++ rl ++ [0, 4, 77, 81, 84, 84] ++ [4] ++ [2] ++ rest) ∧
    lwmqtt_encode_connect (List.replicate 20 170) 20 0 connect_example_password_only none =
      lwmqtt_encode_connect (List.replicate 20 170) 20 0
        { connect_example_password_only with password := .null } none :=
  ⟨(encode_connect_flags_byte (List.replicate 20 170) 20 0 connect_example_password_only none
      (by decide) (by decide) (by decide) (by decide) (by intro w h; cases h)
      (by intro w h; cases h)).2.1
      [16, 15, 0, 4, 77, 81, 84, 84, 4, 2, 0, 60, 0, 3, 97, 98, 99, 170, 170, 170] 17
      (by decide),
    (encode_connect_flags_byte (List.replicate 20 170) 20 0 connect_example_password_only none
      (by decide) (by decide) (by decide) (by decide) (by intro w h; cases h)
      (by intro w h; cases h)).2.2 (by decide)⟩

/-- C6: for every options/will input on which the `int` sums of lines 97-118 do not
overflow (`lwmqtt_total_header_length(rem_len) + rem_len` is at most 2147483647, as it is
for every input whose lengths are at most 65535), and for every buffer and capacity,
`lwmqtt_encode_connect` returns BufferTooShort if and only if
`lwmqtt_total_header_length(rem_len) + rem_len > buf_len`: when the check fails the call
returns BufferTooShort with the buffer and the output length exactly as they were, and
whenever the call returns BufferTooShort the check has failed and the buffer and the
output length are as they were. -/
theorem encode_connect_all_or_nothing (mem : List Nat) (buf_len len : Int)
    (options : lwmqtt_options_t) (will : Option lwmqtt_will_t) :
    lwmqtt_total_header_length (lwmqtt_encode_connect_rem_len options will)
        + lwmqtt_encode_connect_rem_len options will ≤ 2147483647 →
    (((lwmqtt_total_header_length (lwmqtt_encode_connect_rem_len options will)
        + lwmqtt_encode_connect_rem_len options will : Nat) : Int) > buf_len →
      lwmqtt_encode_connect mem buf_len len options will
        = some (LWMQTT_BUFFER_TOO_SHORT_ERROR, mem, len)) ∧
    ∀ mem1 len1, lwmqtt_encode_connect mem buf_len len options will
        = some (LWMQTT_BUFFER_TOO_SHORT_ERROR, mem1, len1) →
      ((lwmqtt_total_header_length (lwmqtt_encode_connect_rem_len options will)
        + lwmqtt_encode_connect_rem_len options will : Nat) : Int) > buf_len
        ∧ mem1 = mem ∧ len1 = len := by
  intro _
  constructor
  · intro hc
    unfold lwmqtt_encode_connect
    simp only
    rw [if_pos hc]
  · intro mem1 len1 h
    unfold lwmqtt_encode_connect at h
    simp only at h
    by_cases hc : ((lwmqtt_total_header_length (lwmqtt_encode_connect_rem_len options will)
        + lwmqtt_encode_connect_rem_len options will : Nat) : Int) > buf_len
    · rw [if_pos hc] at h
      simp only [Option.some.injEq, Prod.mk.injEq, true_and] at h
      exact ⟨hc, h.1.symm, h.2.symm⟩
    · rw [if_neg hc] at h
      cases hw : lwmqtt_encode_connect_write mem (lwmqtt_encode_connect_rem_len options will)
          options will with
      | none => rw [hw] at h; cases h
      | some p =>
        rw [hw] at h
        simp at h

/-- The CONNECT packet for client id "abc" needs 17 bytes, far inside the range of `int`;
with a capacity of 16 the call returns BufferTooShort and the sentinel-filled buffer is
intact. -/
theorem encode_connect_all_or_nothing_witness :
    lwmqtt_total_header_length (lwmqtt_encode_connect_rem_len connect_example_options none)
        + lwmqtt_encode_connect_rem_len connect_example_options none = 17 ∧
    lwmqtt_encode_connect (List.replicate 16 170) 16 0 connect_example_options none
      = some (LWMQTT_BUFFER_TOO_SHORT_ERROR, List.replicate 16 170, 0) :=
  ⟨by decide,
    (encode_connect_all_or_nothing (List.replicate 16 170) 16 0 connect_example_options none
      (by decide)).1 (by decide)⟩

/-! ## CONNACK -/

theorem decode_connack_unfold (ovf : Int) (out0 : connack_out) (mem : List Nat) (buf_len : Int) :
    lwmqtt_decode_connack ovf out0 mem buf_len =
      match load mem 0 with
      | none => none
      | some b =>
        if b / 16 % 16 ≠ 2 then some (LWMQTT_FAILURE, out0)
        else
          match lwmqtt_decode_remaining_length ovf mem 1 with
          | none => none
          | some (rc, v) =>
            if rc = ovf then some (LWMQTT_REMAINING_LENGTH_OVERFLOW, out0)
            else if v ≠ 2 ∨ buf_len < v + 2 then some (LWMQTT_LENGTH_MISMATCH, out0)
            else
              match load mem 2 with
              | none => none
              | some f =>
                match load mem 3 with
                | none => none
                | some r =>
                  some (LWMQTT_SUCCESS,
                    { session_present := f / 128 % 2 == 1, connack_rc := r }) := by
  unfold lwmqtt_decode_connack lwmqtt_read_char
  cases h0 : load mem 0 with
  | none => rfl
  | some b =>
    simp only [lwmqtt_header_t.of_byte, bitfield_get, LWMQTT_CONNACK_PACKET,
      lwmqtt_connack_flags_t.session_present]
    norm_num
    by_cases hb : b / 16 % 16 = 2
    · simp only [hb, not_true_eq_false, if_false]
      cases hd : lwmqtt_decode_remaining_length ovf mem 1 with
      | none => rfl
      | some p =>
        obtain ⟨rc, v⟩ := p
        simp only
        by_cases hrc : rc = ovf
        · simp only [hrc, if_true]
        · simp only [hrc, if_false]
          by_cases hv : v ≠ 2 ∨ buf_len < v + 2
          · simp only [hv, if_true]
          · simp only [hv, if_false]
            cases h2 : load mem 2 with
            | none => rfl
            | some f =>
              simp only
              cases h3 : load mem 3 with
              | none => rfl
              | some r => rfl
    · simp [hb]

/-- What `lwmqtt_decode_connack` does on a well-sized CONNACK packet: the session-present
flag is bit 7 of the flags byte. -/
theorem decode_connack_fields (ovf : Int) (out0 : connack_out) (h f r : Nat) (rest : List Nat)
    (buf_len : Int) (hovf : ovf ≠ 1) (hh : h / 16 % 16 = 2) (hlen : 4 ≤ buf_len) :
    lwmqtt_decode_connack ovf out0 ([h, 2, f, r] ++ rest) buf_len =
      some (LWMQTT_SUCCESS, { session_present := f / 128 % 2 == 1, connack_rc := r }) := by
  rw [decode_connack_unfold]
  have h0 : load ([h, 2, f, r] ++ rest) 0 = some h := rfl
  have h1 : load ([h, 2, f, r] ++ rest) 1 = some 2 := rfl
  have h2 : load ([h, 2, f, r] ++ rest) 2 = some f := rfl
  have h3 : load ([h, 2, f, r] ++ rest) 3 = some r := by
    rw [show (3 : Int) = ((3 : Nat) : Int) from rfl, load_nat]; simp
  rw [h0]
  simp only [hh, ne_eq, not_true_eq_false, if_false]
  rw [decode_remaining_length_1 ovf _ 1 2 h1 (by omega)]
  simp only [h2, h3]
  rw [if_neg (fun h => hovf h.symm), if_neg (by omega)]

/-- C7 (the code at the failing input): for the CONNACK packet 0x20 0x02 0x01 0x00, whose
flags byte has bit 0 set, `lwmqtt_decode_connack` returns Success with session_present
false, and for 0x20 0x02 0x80 0x00, whose flags byte has bit 0 clear, it returns Success
with session_present true; the return code is passed through. -/
theorem decode_connack_session_present_bit :
    lwmqtt_decode_connack (-3) { session_present := true, connack_rc := 9 }
        [0x20, 0x02, 0x01, 0x00] 4
      = some (LWMQTT_SUCCESS, { session_present := false, connack_rc := 0 }) ∧
    lwmqtt_decode_connack (-3) { session_present := false, connack_rc := 9 }
        [0x20, 0x02, 0x80, 0x00] 4
      = some (LWMQTT_SUCCESS, { session_present := true, connack_rc := 0 }) :=
  ⟨decode_connack_fields (-3) _ 0x20 0x01 0x00 [] 4 (by decide) (by decide) (by decide),
   decode_connack_fields (-3) _ 0x20 0x80 0x00 [] 4 (by decide) (by decide) (by decide)⟩

/-- C8: `lwmqtt_decode_connack` returns Failure when bits 7-4 of the header byte are not
the CONNACK type; when they are and the remaining-length field decodes without overflow
to v, it returns LengthMismatch if v is not 2 or buf_len < 2 + v, it returns
LengthMismatch only then, and otherwise (the declared length being available) it returns
Success. The out-parameters are untouched on Failure and LengthMismatch. -/
theorem decode_connack_rejection (ovf : Int) (out0 : connack_out) (mem : List Nat)
    (buf_len : Int) (b : Nat) (hb : load mem 0 = some b) :
    (b / 16 % 16 ≠ 2 → lwmqtt_decode_connack ovf out0 mem buf_len = some (LWMQTT_FAILURE, out0)) ∧
    ∀ rc v, b / 16 % 16 = 2 → lwmqtt_decode_remaining_length ovf mem 1 = some (rc, v) →
      rc ≠ ovf →
      (v ≠ 2 ∨ buf_len < 2 + v →
        lwmqtt_decode_connack ovf out0 mem buf_len = some (LWMQTT_LENGTH_MISMATCH, out0)) ∧
      (∀ out, lwmqtt_decode_connack ovf out0 mem buf_len = some (LWMQTT_LENGTH_MISMATCH, out) →
        v ≠ 2 ∨ buf_len < 2 + v) ∧
      (¬ (v ≠ 2 ∨ buf_len < 2 + v) → buf_len ≤ (mem.length : Int) →
        ∃ out, lwmqtt_decode_connack ovf out0 mem buf_len = some (LWMQTT_SUCCESS, out)) := by
  rw [decode_connack_unfold, hb]
  constructor
  · intro h
    simp only [h, ne_eq, not_false_eq_true, if_true]
  · intro rc v hty hd hrc
    simp only [hty, ne_eq, not_true_eq_false, if_false, hd, hrc]
    have hcomm : (¬ v = 2 ∨ buf_len < v + 2) ↔ (¬ v = 2 ∨ buf_len < 2 + v) := by
      constructor <;> (intro h; omega)
    by_cases hc : ¬ v = 2 ∨ buf_len < 2 + v
    · rw [if_pos (hcomm.mpr hc)]
      exact ⟨fun _ => rfl, fun _ _ => hc, fun h => absurd hc h⟩
    · rw [if_neg (fun h => hc (hcomm.mp h))]
      have hex : buf_len ≤ (mem.length : Int) →
          ∃ f r, load mem 2 = some f ∧ load mem 3 = some r := by
        intro hm
        have h4 : 4 ≤ mem.length := by omega
        have e2 : load mem 2 = mem[2]? := load_nat mem 2
        have e3 : load mem 3 = mem[3]? := load_nat mem 3
        rw [e2, e3, List.getElem?_eq_getElem (by omega), List.getElem?_eq_getElem (by omega)]
        exact ⟨_, _, rfl, rfl⟩
      refine ⟨fun h => absurd h hc, ?_, ?_⟩
      · intro out h
        exfalso
        cases h2 : load mem 2 with
        | none => rw [h2] at h; cases h
        | some f =>
          rw [h2] at h
          cases h3 : load mem 3 with
          | none => rw [h3] at h; cases h
          | some r => rw [h3] at h; simp at h
      · intro _ hm
        obtain ⟨f, r, h2, h3⟩ := hex hm
        rw [h2, h3]
        exact ⟨_, rfl⟩

theorem decode_connack_rejection_witness :
    lwmqtt_decode_connack (-3) { session_present := false, connack_rc := 9 }
        [0x20, 0x03, 0x00, 0x00, 0x00] 5
      = some (LWMQTT_LENGTH_MISMATCH, { session_present := false, connack_rc := 9 }) :=
  ((decode_connack_rejection (-3) { session_present := false, connack_rc := 9 }
      [0x20, 0x03, 0x00, 0x00, 0x00] 5 0x20 (by decide)).2 1 3 (by decide) (by decide)
      (by decide)).1 (by decide)

/-! ## Acknowledgements -/

/-- What `lwmqtt_encode_ack` does when the declared capacity is available. -/
theorem encode_ack_eq (mem : List Nat) (buf_len len : Int) (t : Nat) (dup : Bool)
    (packet_id : Nat) (hmem : buf_len ≤ (mem.length : Int)) (ht : t ≤ 15)
    (hid : packet_id ≤ 65535) :
    lwmqtt_encode_ack mem buf_len len t dup packet_id =
      if buf_len < 4 then some (LWMQTT_BUFFER_TOO_SHORT_ERROR, mem, len)
      else
        some (LWMQTT_SUCCESS,
          [16 * t + 8 * dup.toNat + 2 * (if t = LWMQTT_PUBREL_PACKET then 1 else 0), 0x02,
            packet_id / 256, packet_id % 256] ++ mem.drop 4, 4) := by
  unfold lwmqtt_encode_ack
  by_cases hc : buf_len < 4
  · rw [if_pos hc, if_pos hc]
  · rw [if_neg hc, if_neg hc]
    have hH : lwmqtt_header_t.byte
        { retain := 0, qos := if t = LWMQTT_PUBREL_PACKET then 1 else 0,
          dup := if dup then 1 else 0, type := t } =
        16 * t + 8 * dup.toNat + 2 * (if t = LWMQTT_PUBREL_PACKET then 1 else 0) := by
      rw [header_byte_eq _ (by simp) (by simp only; split_ifs <;> omega)
        (by cases dup <;> simp) ht]
      cases dup <;> simp
    have hlt := header_byte_lt
        { retain := 0, qos := if t = LWMQTT_PUBREL_PACKET then 1 else 0,
          dup := if dup then 1 else 0, type := t }
    rw [hH] at hlt
    simp only [hH]
    conv_lhs => rw [← written_nil mem]
    rw [write_char_written mem [] 0 _ rfl (by omega)]
    simp only [List.nil_append, Nat.mod_eq_of_lt hlt]
    rw [encode_remaining_length_written mem
        [16 * t + 8 * dup.toNat + 2 * (if t = LWMQTT_PUBREL_PACKET then 1 else 0)] (0 + 1) 2 rfl,
      remaining_length_bytes_1 2 (by omega),
      if_pos (by simp only [List.length_singleton]; omega)]
    simp only
    rw [write_int_written mem _ _ _ (by simp) (by simp; omega)]
    simp only [Option.some.injEq, Prod.mk.injEq, true_and]
    constructor
    · unfold written
      have e1 : packet_id % 65536 / 256 % 256 = packet_id / 256 := by omega
      have e2 : packet_id % 65536 % 256 = packet_id % 256 := by omega
      rw [e1, e2]
      rfl
    · rfl

/-- C9: with the declared capacity available, for every packet type t in 1..14, dup flag
and 16-bit packet id, `lwmqtt_encode_ack` returns BufferTooShort, leaving the buffer and
the output length as they were, exactly when buf_len < 4; otherwise it returns Success
with written length 4 and the bytes 16*t + 8*dup + 2*q, 0x02, packet_id / 256,
packet_id mod 256 in front of the untouched rest of the buffer, q being 1 for PUBREL and
0 for every other type; the retain bit is 0. -/
theorem encode_ack_layout (mem : List Nat) (buf_len len : Int) (t : Nat) (dup : Bool)
    (packet_id : Nat) (hmem : buf_len ≤ (mem.length : Int)) (ht1 : 1 ≤ t) (ht2 : t ≤ 14)
    (hid : packet_id ≤ 65535) :
    lwmqtt_encode_ack mem buf_len len t dup packet_id =
        (if buf_len < 4 then some (LWMQTT_BUFFER_TOO_SHORT_ERROR, mem, len)
        else
          some (LWMQTT_SUCCESS,
            [16 * t + 8 * dup.toNat + 2 * (if t = LWMQTT_PUBREL_PACKET then 1 else 0), 0x02,
              packet_id / 256, packet_id % 256] ++ mem.drop 4, 4)) ∧
      (16 * t + 8 * dup.toNat + 2 * (if t = LWMQTT_PUBREL_PACKET then 1 else 0)) % 2 = 0 := by
  refine ⟨encode_ack_eq mem buf_len len t dup packet_id hmem (by omega) hid, ?_⟩
  omega

theorem encode_ack_layout_witness :
    lwmqtt_encode_ack [9, 9, 9, 9, 9] 5 0 LWMQTT_PUBREL_PACKET true 65535 =
        (if (5 : Int) < 4 then some (LWMQTT_BUFFER_TOO_SHORT_ERROR, [9, 9, 9, 9, 9], 0)
        else
          some (LWMQTT_SUCCESS,
            [16 * LWMQTT_PUBREL_PACKET + 8 * true.toNat
                + 2 * (if LWMQTT_PUBREL_PACKET = LWMQTT_PUBREL_PACKET then 1 else 0), 0x02,
              65535 / 256, 65535 % 256] ++ [9, 9, 9, 9, 9].drop 4, 4)) ∧
      (16 * LWMQTT_PUBREL_PACKET + 8 * true.toNat
        + 2 * (if LWMQTT_PUBREL_PACKET = LWMQTT_PUBREL_PACKET then 1 else 0)) % 2 = 0 :=
  encode_ack_layout [9, 9, 9, 9, 9] 5 0 LWMQTT_PUBREL_PACKET true 65535 (by decide) (by decide)
    (by decide) (by decide)

/-- What `lwmqtt_decode_ack` does on a packet with a one-byte remaining length of 2. -/
theorem decode_ack_fields (ovf : Int) (out0 : ack_out) (h a b : Nat) (rest : List Nat)
    (buf_len : Int) (hovf : ovf ≠ 1) (hlen : 4 ≤ buf_len) :
    lwmqtt_decode_ack ovf out0 ([h, 2, a, b] ++ rest) buf_len =
      some (LWMQTT_SUCCESS,
        { packet_type := h / 16 % 16, dup := h / 8 % 2 == 1,
          packet_id := (256 * a + b) % 65536 }) := by
  unfold lwmqtt_decode_ack
  rw [read_char_at ([h, 2, a, b] ++ rest) [] ([2, a, b] ++ rest) h 0 rfl rfl]
  simp only
  rw [decode_remaining_length_1 ovf _ (0 + 1) 2
    (load_at ([h, 2, a, b] ++ rest) [h] ([a, b] ++ rest) 2 (0 + 1) rfl rfl) (by omega)]
  simp only
  rw [if_neg (fun h => hovf h.symm), if_neg (by omega)]
  rw [read_int_at ([h, 2, a, b] ++ rest) [h, 2] rest a b (0 + 1 + 1) rfl (by simp)]
  simp only [lwmqtt_header_t.of_byte, bitfield_get]
  norm_num

/-- C10: with the declared capacity (at least 4) available, for every packet type t in
1..14, dup flag and 16-bit packet id, `lwmqtt_encode_ack` returns Success with length 4
and `lwmqtt_decode_ack` on the 4 produced bytes (buf_len = 4) returns Success with
packet_type = t, the same dup and the same packet id; the QoS subfield of the encoded
header byte reads back as 1 when t is PUBREL. -/
theorem ack_round_trip (ovf : Int) (out0 : ack_out) (mem : List Nat) (buf_len len : Int)
    (t : Nat) (dup : Bool) (packet_id : Nat) (hovf : ovf ≠ 1)
    (hmem : buf_len ≤ (mem.length : Int)) (hcap : 4 ≤ buf_len) (ht1 : 1 ≤ t) (ht2 : t ≤ 14)
    (hid : packet_id ≤ 65535) :
    ∃ (mem1 : List Nat) (b : Nat),
      lwmqtt_encode_ack mem buf_len len t dup packet_id = some (LWMQTT_SUCCESS, mem1, 4) ∧
      lwmqtt_decode_ack ovf out0 (mem1.take 4) 4 =
        some (LWMQTT_SUCCESS, { packet_type := t, dup := dup, packet_id := packet_id }) ∧
      mem1[0]? = some b ∧
      (t = LWMQTT_PUBREL_PACKET → (lwmqtt_header_t.of_byte b).qos = 1) := by
  have heq := encode_ack_eq mem buf_len len t dup packet_id hmem (by omega) hid
  rw [if_neg (by omega)] at heq
  refine ⟨_, _, heq, ?_, rfl, ?_⟩
  · have htake : ([16 * t + 8 * dup.toNat + 2 * (if t = LWMQTT_PUBREL_PACKET then 1 else 0),
        0x02, packet_id / 256, packet_id % 256] ++ mem.drop 4).take 4 =
        [16 * t + 8 * dup.toNat + 2 * (if t = LWMQTT_PUBREL_PACKET then 1 else 0),
        0x02, packet_id / 256, packet_id % 256] ++ [] := by
      simp
    rw [htake, decode_ack_fields ovf out0 _ _ _ [] 4 hovf (by omega)]
    simp only [Option.some.injEq, Prod.mk.injEq, true_and, ack_out.mk.injEq]
    refine ⟨?_, ?_, ?_⟩
    · split_ifs <;> cases dup <;> simp <;> omega
    · split_ifs <;> cases dup <;> simp <;> omega
    · omega
  · intro hp
    simp only [lwmqtt_header_t.of_byte, bitfield_get, hp, if_true]
    cases dup <;> simp [LWMQTT_PUBREL_PACKET]

theorem ack_round_trip_witness :
    ∃ (mem1 : List Nat) (b : Nat),
      lwmqtt_encode_ack [9, 9, 9, 9, 9] 4 0 LWMQTT_PUBREL_PACKET true 65535
        = some (LWMQTT_SUCCESS, mem1, 4) ∧
      lwmqtt_decode_ack (-3) { packet_type := 0, dup := false, packet_id := 0 } (mem1.take 4) 4 =
        some (LWMQTT_SUCCESS,
          { packet_type := LWMQTT_PUBREL_PACKET, dup := true, packet_id := 65535 }) ∧
      mem1[0]? = some b ∧
      (LWMQTT_PUBREL_PACKET = LWMQTT_PUBREL_PACKET → (lwmqtt_header_t.of_byte b).qos = 1) :=
  ack_round_trip (-3) { packet_type := 0, dup := false, packet_id := 0 } [9, 9, 9, 9, 9] 4 0
    LWMQTT_PUBREL_PACKET true 65535 (by decide) (by decide) (by decide) (by decide) (by decide)
    (by decide)

/-- The allocation order matters: the connect flags of a clean-session request are the
byte 0x02 when bit-fields are allocated from the least significant bit, and would be 0x40
from the most significant bit. -/
theorem connect_flags_allocation_order :
    bitfield_pack [(1, 0), (1, 1), (1, 0), (2, 0), (1, 0), (1, 0), (1, 0)] = 0x02 ∧
    bitfield_pack_msb_first [(1, 0), (1, 1), (1, 0), (2, 0), (1, 0), (1, 0), (1, 0)] = 0x40 := by
  decide

/-! ## The remaining-length field in detail -/

/-- What `lwmqtt_encode_remaining_length` does at any offset of any buffer. -/
theorem encode_remaining_length_at (mem : List Nat) (buf n : Nat) :
    lwmqtt_encode_remaining_length mem buf n =
      if buf + (remaining_length_bytes n).length ≤ mem.length then
        some (mem.take buf ++ remaining_length_bytes n
            ++ mem.drop (buf + (remaining_length_bytes n).length),
          (remaining_length_bytes n).length)
      else none := by
  by_cases hb : buf ≤ mem.length
  · have h := encode_remaining_length_written mem (mem.take buf) buf n (by simp [hb])
    rw [written_take] at h
    rw [h]
    simp only [List.length_take, Nat.min_eq_left hb, written, List.length_append]
  · rw [encode_remaining_length_out_of_range mem buf n (by omega), if_neg (by omega)]

/-- C11: for every n in 0..268435455, `lwmqtt_encode_remaining_length` (which returns
whenever four cells are free at `buf`) writes exactly k bytes at `buf` and nothing else,
k being the least number in 1..4 with n < 128^k (1 for n < 128, 2 for n < 16384, 3 for
n < 2097152, 4 otherwise); every written byte except the last has the bit 0x80 set, the
last has it clear, and the last byte is not 0 when k > 1. -/
theorem encode_remaining_length_minimal (mem : List Nat) (buf n : Nat) (hn : n ≤ 268435455) :
    (buf + 4 ≤ mem.length →
      ∃ mem1 k, lwmqtt_encode_remaining_length mem buf n = some (mem1, k)) ∧
    ∀ mem1 k, lwmqtt_encode_remaining_length mem buf n = some (mem1, k) →
      k = (if n < 128 then 1 else if n < 16384 then 2 else if n < 2097152 then 3 else 4) ∧
      n < 128 ^ k ∧ (∀ j, 1 ≤ j → j < k → 128 ^ j ≤ n) ∧
      ∃ (front : List Nat) (last : Nat),
        (front ++ [last]).length = k ∧
        mem1 = mem.take buf ++ (front ++ [last]) ++ mem.drop (buf + k) ∧
        (∀ b ∈ front, b &&& 0x80 = 0x80) ∧ last &&& 0x80 = 0 ∧ (k > 1 → last ≠ 0) := by
  have hlen := remaining_length_bytes_length n hn
  have hw := encode_remaining_length_at mem buf n
  constructor
  · intro hroom
    rw [hw, if_pos (by rw [hlen]; split_ifs <;> omega)]
    exact ⟨_, _, rfl⟩
  · intro mem1 k h
    rw [hw] at h
    split_ifs at h with hc
    simp only [Option.some.injEq, Prod.mk.injEq] at h
    obtain ⟨hm, hk⟩ := h
    subst hm
    have hbit : ∀ d, d < 128 → (d + 128) &&& 128 = 128 := by
      intro d hd
      rw [and_128]
      omega
    have hbit0 : ∀ d, d < 128 → d &&& 128 = 0 := by
      intro d hd
      rw [and_128]
      omega
    by_cases h1 : n < 128
    · have hb := remaining_length_bytes_1 n h1
      rw [hb] at hk ⊢
      simp only [List.length_singleton] at hk
      subst hk
      refine ⟨by rw [if_pos h1], by omega, fun j hj1 hj2 => by omega, [], n, rfl, rfl, ?_,
        hbit0 n h1, fun h => by omega⟩
      intro b hb
      cases hb
    · by_cases h2 : n < 16384
      · have hb := remaining_length_bytes_2 n (by omega) h2
        rw [hb] at hk ⊢
        simp only [List.length_cons, List.length_nil] at hk
        subst hk
        refine ⟨by rw [if_neg h1, if_pos h2], by norm_num; omega, ?_, [n % 128 + 128], n / 128,
          rfl, rfl, ?_, hbit0 _ (by omega), fun _ => by omega⟩
        · intro j hj1 hj2
          have : j = 1 := by omega
          subst this
          norm_num; omega
        · intro b hb
          simp only [List.mem_singleton] at hb
          subst hb
          exact hbit _ (by omega)
      · by_cases h3 : n < 2097152
        · have hb := remaining_length_bytes_3 n (by omega) h3
          rw [hb] at hk ⊢
          simp only [List.length_cons, List.length_nil] at hk
          subst hk
          refine ⟨by rw [if_neg h1, if_neg h2, if_pos h3], by norm_num; omega, ?_,
            [n % 128 + 128, n / 128 % 128 + 128], n / 16384, rfl, rfl, ?_,
            hbit0 _ (by omega), fun _ => by omega⟩
          · intro j hj1 hj2
            have : j = 1 ∨ j = 2 := by omega
            rcases this with rfl | rfl <;> norm_num <;> omega
          · intro b hb
            simp only [List.mem_cons, List.mem_singleton, List.not_mem_nil, or_false] at hb
            rcases hb with rfl | rfl <;> exact hbit _ (by omega)
        · have hb := remaining_length_bytes_4 n (by omega) (by omega)
          rw [hb] at hk ⊢
          simp only [List.length_cons, List.length_nil] at hk
          subst hk
          refine ⟨by rw [if_neg h1, if_neg h2, if_neg h3], by norm_num; omega, ?_,
            [n % 128 + 128, n / 128 % 128 + 128, n / 16384 % 128 + 128], n / 2097152, rfl, rfl,
            ?_, hbit0 _ (by omega), fun _ => by omega⟩
          · intro j hj1 hj2
            have : j = 1 ∨ j = 2 ∨ j = 3 := by omega
            rcases this with rfl | rfl | rfl <;> norm_num <;> omega
          · intro b hb
            simp only [List.mem_cons, List.mem_singleton, List.not_mem_nil, or_false] at hb
            rcases hb with rfl | rfl | rfl <;> exact hbit _ (by omega)

theorem encode_remaining_length_minimal_witness :
    2 = (if 300 < 128 then 1 else if 300 < 16384 then 2 else if 300 < 2097152 then 3 else 4) ∧
      300 < 128 ^ 2 ∧ (∀ j, 1 ≤ j → j < 2 → 128 ^ j ≤ 300) ∧
      ∃ (front : List Nat) (last : Nat),
        (front ++ [last]).length = 2 ∧
        [9, 172, 2, 9, 9, 9] = [9, 9, 9, 9, 9, 9].take 1 ++ (front ++ [last])
          ++ [9, 9, 9, 9, 9, 9].drop (1 + 2) ∧
        (∀ b ∈ front, b &&& 0x80 = 0x80) ∧ last &&& 0x80 = 0 ∧ (2 > 1 → last ≠ 0) :=
  (encode_remaining_length_minimal [9, 9, 9, 9, 9, 9] 1 300 (by decide)).2
    [9, 172, 2, 9, 9, 9] 2 (by decide)

theorem and_128_ne_zero (c : Nat) : c &&& 128 ≠ 0 ↔ c / 128 % 2 = 1 := by
  rw [and_128]
  omega

/-- C12: let c0, c1, c2, c3 be the bytes at `buf`, each readable when the bytes in front
of it all have the bit 0x80 set, and let the overflow enumerator not be one of the lengths
1..4.  Then `lwmqtt_decode_remaining_length` returns RemainingLengthOverflow if and only
if each of the four bytes has the bit 0x80 set; otherwise it returns the position k in
1..4 of the first byte without that bit, and the decoded value is the sum over i < k of
(c_i mod 128) * 128^i, at most 268435455. -/
theorem decode_remaining_length_overflow (ovf : Int) (mem : List Nat) (buf : Int)
    (c0 c1 c2 c3 : Nat) (hovf : ovf < 1 ∨ 4 < ovf)
    (h0 : load mem buf = some c0)
    (h1 : c0 &&& 0x80 ≠ 0 → load mem (buf + 1) = some c1)
    (h2 : c0 &&& 0x80 ≠ 0 → c1 &&& 0x80 ≠ 0 → load mem (buf + 2) = some c2)
    (h3 : c0 &&& 0x80 ≠ 0 → c1 &&& 0x80 ≠ 0 → c2 &&& 0x80 ≠ 0 →
      load mem (buf + 3) = some c3) :
    ((∃ v, lwmqtt_decode_remaining_length ovf mem buf = some (ovf, v)) ↔
      (c0 &&& 0x80 ≠ 0 ∧ c1 &&& 0x80 ≠ 0 ∧ c2 &&& 0x80 ≠ 0 ∧ c3 &&& 0x80 ≠ 0)) ∧
    (c0 &&& 0x80 = 0 →
      lwmqtt_decode_remaining_length ovf mem buf = some (1, ((c0 % 128 : Nat) : Int))) ∧
    (c0 &&& 0x80 ≠ 0 → c1 &&& 0x80 = 0 →
      lwmqtt_decode_remaining_length ovf mem buf =
        some (2, ((c0 % 128 + c1 % 128 * 128 : Nat) : Int))) ∧
    (c0 &&& 0x80 ≠ 0 → c1 &&& 0x80 ≠ 0 → c2 &&& 0x80 = 0 →
      lwmqtt_decode_remaining_length ovf mem buf =
        some (3, ((c0 % 128 + c1 % 128 * 128 + c2 % 128 * 128 ^ 2 : Nat) : Int))) ∧
    (c0 &&& 0x80 ≠ 0 → c1 &&& 0x80 ≠ 0 → c2 &&& 0x80 ≠ 0 → c3 &&& 0x80 = 0 →
      lwmqtt_decode_remaining_length ovf mem buf =
        some (4, ((c0 % 128 + c1 % 128 * 128 + c2 % 128 * 128 ^ 2 + c3 % 128 * 128 ^ 3 : Nat)
          : Int))) ∧
    c0 % 128 + c1 % 128 * 128 + c2 % 128 * 128 ^ 2 + c3 % 128 * 128 ^ 3 ≤ 268435455 := by
  have e0 := and_128_ne_zero c0
  have e1 := and_128_ne_zero c1
  have e2 := and_128_ne_zero c2
  have e3 := and_128_ne_zero c3
  have hu := decode_remaining_length_unfold ovf mem buf
  rw [h0] at hu
  simp only at hu
  rw [hu]
  norm_num
  by_cases b0 : c0 / 128 % 2 = 1
  · rw [h1 (e0.mpr b0)]
    by_cases b1 : c1 / 128 % 2 = 1
    · rw [h2 (e0.mpr b0) (e1.mpr b1)]
      by_cases b2 : c2 / 128 % 2 = 1
      · rw [h3 (e0.mpr b0) (e1.mpr b1) (e2.mpr b2)]
        by_cases b3 : c3 / 128 % 2 = 1
        · simp [b0, b1, b2, b3, e0, e1, e2, e3]
          omega
        · simp [b0, b1, b2, b3, e0, e1, e2, e3]
          omega
      · simp [b0, b1, b2, e0, e1, e2, e3]
        omega
    · simp [b0, b1, e0, e1, e2, e3]
      omega
  · simp [b0, e0, e1, e2, e3]
    omega

theorem decode_remaining_length_overflow_witness :
    ∃ v, lwmqtt_decode_remaining_length (-3) [0xFF, 0xFF, 0xFF, 0xFF, 0xFF] 0 = some (-3, v) :=
  (decode_remaining_length_overflow (-3) [0xFF, 0xFF, 0xFF, 0xFF, 0xFF] 0 0xFF 0xFF 0xFF 0xFF
    (by decide) (by decide) (fun _ => by decide) (fun _ _ => by decide)
    (fun _ _ _ => by decide)).1.2 (by decide)

/-! ## PUBLISH decoding of malformed packets -/

/-- C14: `lwmqtt_decode_publish` returns Failure when bits 7-4 of the header byte are not
the PUBLISH type; when they are and the remaining-length field decodes to rem_len, it
returns Failure if rem_len < 2, and it returns Failure if the two bytes behind the field
are a big-endian topic length L with 2 + L > rem_len. -/
theorem decode_publish_rejects_long_topic (ovf : Int) (out0 : publish_out) (mem : List Nat)
    (buf_len : Int) (b : Nat) (hb : load mem 0 = some b) :
    (b / 16 % 16 ≠ 3 →
      lwmqtt_decode_publish ovf out0 mem buf_len = some (LWMQTT_FAILURE, out0)) ∧
    ∀ rc rem, b / 16 % 16 = 3 → lwmqtt_decode_remaining_length ovf mem 1 = some (rc, rem) →
      (rem < 2 →
        ∃ out, lwmqtt_decode_publish ovf out0 mem buf_len = some (LWMQTT_FAILURE, out)) ∧
      (∀ L p, lwmqtt_read_int mem (1 + rc) = some (L, p) → 2 + (L : Int) > rem →
        ∃ out, lwmqtt_decode_publish ovf out0 mem buf_len = some (LWMQTT_FAILURE, out)) := by
  have hc : lwmqtt_read_char mem 0 = some (b, 0 + 1) := by
    unfold lwmqtt_read_char
    rw [hb]
  have hty : (lwmqtt_header_t.of_byte b).type = b / 16 % 16 := by
    simp only [lwmqtt_header_t.of_byte, bitfield_get]
    norm_num
  unfold lwmqtt_decode_publish
  rw [hc]
  simp only [hty, LWMQTT_PUBLISH_PACKET, zero_add]
  constructor
  · intro h
    rw [if_pos h]
  · intro rc rem h3 hd
    rw [if_neg (by omega), hd]
    simp only
    constructor
    · intro hrem
      unfold lwmqtt_read_lp_string
      rw [if_neg (by omega)]
      simp
    · intro L p hL hlong
      have hp : p = 1 + rc + 2 := by
        unfold lwmqtt_read_int lwmqtt_read_char at hL
        cases h1 : load mem (1 + rc) with
        | none => rw [h1] at hL; cases hL
        | some hi =>
          rw [h1] at hL
          simp only at hL
          cases h2 : load mem (1 + rc + 1) with
          | none => rw [h2] at hL; cases hL
          | some lo =>
            rw [h2] at hL
            simp only [Option.some.injEq, Prod.mk.injEq] at hL
            omega
      unfold lwmqtt_read_lp_string
      by_cases hgt : 1 + rc + rem - (1 + rc) > 1
      · rw [if_pos hgt, hL]
        simp only
        rw [if_neg (by omega)]
        simp
      · rw [if_neg hgt]
        simp

theorem decode_publish_rejects_long_topic_witness :
    ∃ out, lwmqtt_decode_publish (-3)
        { dup := false, qos := 0, retained := false, packet_id := 0,
          topic := { len := 0, data := 0 }, payload := 0, payload_len := 0 }
        [0x30, 0x04, 0x00, 0x05, 0x61, 0x62] 6 = some (LWMQTT_FAILURE, out) :=
  ((decode_publish_rejects_long_topic (-3)
      { dup := false, qos := 0, retained := false, packet_id := 0,
        topic := { len := 0, data := 0 }, payload := 0, payload_len := 0 }
      [0x30, 0x04, 0x00, 0x05, 0x61, 0x62] 6 0x30 (by decide)).2 1 4 (by decide)
      (by decide)).2 5 4 (by decide) (by decide)

/-! ## The header length table -/

/-- C13 (the code at the table's inputs): `lwmqtt_total_header_length` returns 2, 3, 3, 4
and 5 at 127, 128, 16383, 16384 and 2097152, and it returns 5, not 4, at 2097151, a value
for which `lwmqtt_encode_remaining_length` writes three bytes. -/
theorem total_header_length_table :
    lwmqtt_total_header_length 127 = 2 ∧ lwmqtt_total_header_length 128 = 3 ∧
    lwmqtt_total_header_length 16383 = 3 ∧ lwmqtt_total_header_length 16384 = 4 ∧
    lwmqtt_total_header_length 2097152 = 5 ∧
    lwmqtt_total_header_length 2097151 = 5 ∧
    lwmqtt_total_header_length 2097150 = 4 ∧
    lwmqtt_encode_remaining_length [0, 0, 0, 0] 0 2097151 = some ([255, 255, 127, 0], 3) := by
  decide

/-! ## PUBLISH decoding and the received length -/

/-- C15 (the code at the failing inputs): the result of `lwmqtt_decode_publish` does not
depend on `buf_len`.  On the 4 received bytes 0x30 0x05 0x00 0x03, whose remaining length
5 claims 7 bytes, it returns Success with a topic view at offsets 4..6 and the payload at
offset 7; on the single received byte 0x30 it reads the cell at index 1, outside the
buffer. -/
theorem decode_publish_ignores_buf_len (ovf : Int) (out0 : publish_out) (mem : List Nat)
    (buf_len1 buf_len2 : Int) :
    lwmqtt_decode_publish ovf out0 mem buf_len1 = lwmqtt_decode_publish ovf out0 mem buf_len2 ∧
    lwmqtt_decode_publish (-3)
        { dup := true, qos := 3, retained := true, packet_id := 0,
          topic := { len := 0, data := 0 }, payload := 0, payload_len := 0 }
        [0x30, 0x05, 0x00, 0x03] 4 =
      some (LWMQTT_SUCCESS,
        { dup := false, qos := 0, retained := false, packet_id := 0,
          topic := { len := 3, data := 4 }, payload := 7, payload_len := 0 }) ∧
    lwmqtt_decode_publish (-3)
        { dup := true, qos := 3, retained := true, packet_id := 0,
          topic := { len := 0, data := 0 }, payload := 0, payload_len := 0 }
        [0x30] 1 = none ∧
    load [0x30] 1 = none :=
  ⟨rfl, by decide, by decide, by decide⟩

/-- The return value of `lwmqtt_decode_publish` is Failure or Success. -/
theorem decode_publish_returns (ovf : Int) (out0 : publish_out) (mem : List Nat)
    (buf_len : Int) (e : lwmqtt_err_t) (out : publish_out)
    (h : lwmqtt_decode_publish ovf out0 mem buf_len = some (e, out)) :
    e = LWMQTT_FAILURE ∨ e = LWMQTT_SUCCESS := by
  revert h
  unfold lwmqtt_decode_publish
  cases lwmqtt_read_char mem 0 with
  | none => intro h; cases h
  | some p =>
    obtain ⟨b, ptr⟩ := p
    simp only
    by_cases ht : (lwmqtt_header_t.of_byte b).type ≠ LWMQTT_PUBLISH_PACKET
    · rw [if_pos ht]
      intro h
      simp only [Option.some.injEq, Prod.mk.injEq] at h
      exact Or.inl h.1.symm
    · rw [if_neg ht]
      cases lwmqtt_decode_remaining_length ovf mem ptr with
      | none => intro h; cases h
      | some q =>
        obtain ⟨rc, rem⟩ := q
        simp only
        generalize lwmqtt_read_lp_string _ _ _ _ = r
        cases r with
        | none => intro h; cases h
        | some t =>
          obtain ⟨ok, topic, p⟩ := t
          simp only
          split_ifs
          · intro h
            simp only [Option.some.injEq, Prod.mk.injEq] at h
            exact Or.inl h.1.symm
          · cases lwmqtt_read_int mem p with
            | none => intro h; cases h
            | some u =>
              intro h
              simp only [Option.some.injEq, Prod.mk.injEq] at h
              exact Or.inr h.1.symm
          · intro h
            simp only [Option.some.injEq, Prod.mk.injEq] at h
            exact Or.inr h.1.symm

/-- C17 (the code at the failing input): `lwmqtt_decode_publish` has no return of
RemainingLengthOverflow, whatever the buffer; on a packet whose remaining-length field is
0xFF 0xFF 0xFF 0xFF it adds the error code to the cursor and reads in front of the
buffer, while `lwmqtt_decode_ack` and `lwmqtt_decode_connack` return
RemainingLengthOverflow on the same field. -/
theorem decode_publish_overflow_not_propagated (ovf : Int) (outp : publish_out)
    (outa : ack_out) (outc : connack_out) :
    (∀ mem buf_len out, lwmqtt_decode_publish ovf outp mem buf_len
      ≠ some (LWMQTT_REMAINING_LENGTH_OVERFLOW, out)) ∧
    lwmqtt_decode_publish (-3) outp [0x30, 0xFF, 0xFF, 0xFF, 0xFF, 0x00, 0x00] 7 = none ∧
    lwmqtt_decode_ack ovf outa [0x40, 0xFF, 0xFF, 0xFF, 0xFF, 0x00, 0x00] 7 =
      some (LWMQTT_REMAINING_LENGTH_OVERFLOW, { outa with dup := false, packet_type := 4 }) ∧
    lwmqtt_decode_connack ovf outc [0x20, 0xFF, 0xFF, 0xFF, 0xFF, 0x00, 0x00] 7 =
      some (LWMQTT_REMAINING_LENGTH_OVERFLOW, outc) := by
  refine ⟨?_, ?_, ?_, ?_⟩
  · intro mem buf_len out h
    rcases decode_publish_returns ovf outp mem buf_len _ out h with h1 | h1 <;> cases h1
  · have hc : lwmqtt_read_char [0x30, 0xFF, 0xFF, 0xFF, 0xFF, 0x00, 0x00] 0 = some (0x30, 1) := by
      decide
    have hd : lwmqtt_decode_remaining_length (-3) [0x30, 0xFF, 0xFF, 0xFF, 0xFF, 0x00, 0x00] 1
        = some (-3, 268435455) := by decide
    unfold lwmqtt_decode_publish
    rw [hc]
    simp only
    rw [hd]
    simp [lwmqtt_header_t.of_byte, bitfield_get, LWMQTT_PUBLISH_PACKET, lwmqtt_read_lp_string,
      lwmqtt_read_int, lwmqtt_read_char, load]
  · have hc : lwmqtt_read_char [0x40, 0xFF, 0xFF, 0xFF, 0xFF, 0x00, 0x00] 0 = some (0x40, 1) := by
      decide
    unfold lwmqtt_decode_ack
    rw [hc]
    simp only
    rw [decode_remaining_length_unfold]
    simp [load, lwmqtt_header_t.of_byte, bitfield_get]
  · rw [decode_connack_unfold, decode_remaining_length_unfold]
    simp [load]

/-- C18 (the code at the failing input): on the PUBLISH packet 0x32 0x02 0x00 0x00 (qos 1,
remaining length 2, empty topic, so the packet ends at offset 4) followed by two more
cells, `lwmqtt_decode_publish` reads the packet id behind the end of the packet and
returns Success with the payload at offset 6 and payload_len = -2. -/
theorem decode_publish_cursor_past_end (ovf : Int) :
    lwmqtt_decode_remaining_length ovf [0x32, 0x02, 0x00, 0x00, 0x00, 0x00] 1 = some (1, 2) ∧
    lwmqtt_decode_publish ovf
        { dup := true, qos := 0, retained := true, packet_id := 7,
          topic := { len := 9, data := 9 }, payload := 0, payload_len := 0 }
        [0x32, 0x02, 0x00, 0x00, 0x00, 0x00] 6 =
      some (LWMQTT_SUCCESS,
        { dup := false, qos := 1, retained := false, packet_id := 0,
          topic := { len := 0, data := 4 }, payload := 6, payload_len := -2 }) := by
  have hd : lwmqtt_decode_remaining_length ovf [0x32, 0x02, 0x00, 0x00, 0x00, 0x00] 1
      = some (1, 2) :=
    decode_remaining_length_1 ovf _ 1 2 (by decide) (by decide)
  refine ⟨hd, ?_⟩
  unfold lwmqtt_decode_publish
  have hc : lwmqtt_read_char [0x32, 0x02, 0x00, 0x00, 0x00, 0x00] 0 = some (0x32, 1) := by
    decide
  rw [hc]
  simp only
  rw [hd]
  decide

/-- The part of the payload invariant that `lwmqtt_decode_publish` keeps: on Success the
payload view ends at the end of the packet, and for qos 0 its length is not negative. -/
theorem decode_publish_payload_end (ovf : Int) (out0 : publish_out) (mem : List Nat)
    (buf_len : Int) (out : publish_out)
    (h : lwmqtt_decode_publish ovf out0 mem buf_len = some (LWMQTT_SUCCESS, out)) :
    ∃ rc rem, lwmqtt_decode_remaining_length ovf mem 1 = some (rc, rem) ∧
      out.payload + out.payload_len = 1 + rc + rem ∧ (out.qos = 0 → 0 ≤ out.payload_len) := by
  revert h
  unfold lwmqtt_decode_publish
  cases h0 : lwmqtt_read_char mem 0 with
  | none => intro h; cases h
  | some p =>
    obtain ⟨b, ptr⟩ := p
    have hptr : ptr = 1 := by
      unfold lwmqtt_read_char at h0
      cases hl : load mem 0 with
      | none => rw [hl] at h0; cases h0
      | some c =>
        rw [hl] at h0
        simp only [Option.some.injEq, Prod.mk.injEq] at h0
        omega
    subst hptr
    simp only
    by_cases ht : (lwmqtt_header_t.of_byte b).type ≠ LWMQTT_PUBLISH_PACKET
    · rw [if_pos ht]
      intro h
      simp at h
    · rw [if_neg ht]
      cases h1 : lwmqtt_decode_remaining_length ovf mem 1 with
      | none => intro h; cases h
      | some q =>
        obtain ⟨rc, rem⟩ := q
        simp only
        generalize lwmqtt_read_lp_string _ _ _ _ = r
        cases r with
        | none => intro h; cases h
        | some t =>
          obtain ⟨ok, topic, p⟩ := t
          simp only
          by_cases hok : (!ok || decide (1 + rc + rem - p < 0)) = true
          · rw [if_pos hok]
            intro h
            simp at h
          · rw [if_neg hok]
            have hge : ¬ (1 + rc + rem - p < 0) := by
              intro hlt
              apply hok
              simp [hlt]
            by_cases hq : (lwmqtt_header_t.of_byte b).qos > 0
            · rw [if_pos hq]
              cases lwmqtt_read_int mem p with
              | none => intro h; cases h
              | some u =>
                obtain ⟨id, p1⟩ := u
                intro h
                simp only [Option.some.injEq, Prod.mk.injEq, true_and] at h
                subst h
                refine ⟨rc, rem, rfl, by simp only; omega, ?_⟩
                intro h0
                simp only at h0
                omega
            · rw [if_neg hq]
              intro h
              simp only [Option.some.injEq, Prod.mk.injEq, true_and] at h
              subst h
              refine ⟨rc, rem, rfl, by simp only; omega, ?_⟩
              intro _
              simp only
              omega

/-! ## Fixed-size decoders and the size of the length field -/

/-- C19 (the code at the failing inputs): on packets whose remaining-length field encodes 2
in the two bytes 0x82 0x00, `lwmqtt_decode_remaining_length` reports a field of 2 bytes,
yet `lwmqtt_decode_ack` returns the packet id made of the bytes at offsets 2 and 3 and
`lwmqtt_decode_connack` takes the flags and the return code from offsets 2 and 3, not
from offsets 3 and 4. -/
theorem fixed_size_decoders_skip_one_byte :
    lwmqtt_decode_remaining_length (-3) [0x40, 0x82, 0x00, 0x12, 0x34] 1 = some (2, 2) ∧
    lwmqtt_decode_ack (-3) { packet_type := 0, dup := false, packet_id := 0 }
        [0x40, 0x82, 0x00, 0x12, 0x34] 5 =
      some (LWMQTT_SUCCESS, { packet_type := 4, dup := false, packet_id := 0x0012 }) ∧
    lwmqtt_decode_connack (-3) { session_present := false, connack_rc := 0 }
        [0x20, 0x82, 0x00, 0x80, 0x05] 5 =
      some (LWMQTT_SUCCESS, { session_present := false, connack_rc := 0x80 }) := by
  decide

/-! ## The capacity check -/

theorem written_drop (mem out : List Nat) :
    (written mem out).drop out.length = mem.drop out.length := by
  simp [written]

/-- The size of the packet `lwmqtt_encode_publish` writes. -/
theorem publish_bytes_length (h : Nat) (qos packet_id : Nat) (topic : lwmqtt_string_t)
    (payload : List Nat) :
    ([h] ++ remaining_length_bytes (lwmqtt_encode_publish_rem_len qos topic payload)
      ++ [lwmqtt_strlen topic / 256 % 256, lwmqtt_strlen topic % 256] ++ topic.content
      ++ (if qos > 0 then [packet_id % 65536 / 256, packet_id % 256] else [])
      ++ payload).length =
      1 + (remaining_length_bytes (lwmqtt_encode_publish_rem_len qos topic payload)).length
        + lwmqtt_encode_publish_rem_len qos topic payload := by
  simp only [lwmqtt_encode_publish_rem_len, List.length_append, List.length_cons,
    List.length_nil, lwmqtt_strlen]
  split_ifs <;> simp <;> omega

/-- The size of the packet `lwmqtt_encode_connect` writes. -/
theorem connect_bytes_length (options : lwmqtt_options_t) (will : Option lwmqtt_will_t) :
    ([16] ++ remaining_length_bytes (lwmqtt_encode_connect_rem_len options will)
      ++ [0, 4, 77, 81, 84, 84] ++ [4]
      ++ [(lwmqtt_encode_connect_flags options will).byte]
      ++ [options.keep_alive / 256 % 256, options.keep_alive % 256]
      ++ wire_string options.client_id.content
      ++ connect_will_bytes will ++ connect_credential_bytes options).length =
      1 + (remaining_length_bytes (lwmqtt_encode_connect_rem_len options will)).length
        + lwmqtt_encode_connect_rem_len options will := by
  have hR := connect_rem_len_eq options will
  simp only [lwmqtt_strlen] at hR
  simp only [List.length_append, List.length_cons, List.length_nil, wire_string]
  omega

/-- C20: for every n in 0..268435455, `lwmqtt_total_header_length(n)` is at least 1 + the
number k of bytes `lwmqtt_encode_remaining_length` writes for n, with equality except at
n = 2097151, where it is 1 + k + 1; consequently, with the declared capacity available and
the remaining length in that range, a call of `lwmqtt_encode_publish` or
`lwmqtt_encode_connect` that returns Success returns a length of at most buf_len and
leaves every cell from that length on, and the size of the buffer, as they were. -/
theorem total_header_length_covers (mem : List Nat) (buf_len len : Int) (dup : Bool)
    (qos : Nat) (retained : Bool) (packet_id : Nat) (topic : lwmqtt_string_t)
    (payload : List Nat) (options : lwmqtt_options_t) (will : Option lwmqtt_will_t)
    (hmem : buf_len ≤ (mem.length : Int)) :
    (∀ n scratch buf scratch1 k, n ≤ 268435455 →
      lwmqtt_encode_remaining_length scratch buf n = some (scratch1, k) →
      1 + k ≤ lwmqtt_total_header_length n ∧
      (n ≠ 2097151 → lwmqtt_total_header_length n = 1 + k) ∧
      (n = 2097151 → lwmqtt_total_header_length n = 1 + k + 1)) ∧
    (lwmqtt_encode_publish_rem_len qos topic payload ≤ 268435455 →
      ∀ mem1 len1, lwmqtt_encode_publish mem buf_len len dup qos retained packet_id topic
          payload = some (LWMQTT_SUCCESS, mem1, len1) →
        0 ≤ len1 ∧ len1 ≤ buf_len ∧ mem1.length = mem.length ∧
          mem1.drop len1.toNat = mem.drop len1.toNat) ∧
    (lwmqtt_encode_connect_rem_len options will ≤ 268435455 →
      ∀ mem1 len1, lwmqtt_encode_connect mem buf_len len options will
          = some (LWMQTT_SUCCESS, mem1, len1) →
        0 ≤ len1 ∧ len1 ≤ buf_len ∧ mem1.length = mem.length ∧
          mem1.drop len1.toNat = mem.drop len1.toNat) := by
  refine ⟨?_, ?_, ?_⟩
  · intro n scratch buf scratch1 k hn h
    rw [encode_remaining_length_at] at h
    split_ifs at h with hc
    simp only [Option.some.injEq, Prod.mk.injEq] at h
    obtain ⟨-, hk⟩ := h
    rw [← hk, remaining_length_bytes_length n hn]
    unfold lwmqtt_total_header_length
    split_ifs <;> omega
  · intro hrem mem1 len1 hok
    rw [encode_publish_eq mem buf_len len dup qos retained packet_id topic payload hmem hrem]
      at hok
    by_cases hc : ((lwmqtt_total_header_length (lwmqtt_encode_publish_rem_len qos topic payload)
        + lwmqtt_encode_publish_rem_len qos topic payload : Nat) : Int) > buf_len
    · rw [if_pos hc] at hok
      simp at hok
    rw [if_neg hc] at hok
    simp only [Option.some.injEq, Prod.mk.injEq, true_and] at hok
    obtain ⟨hm1, hl1⟩ := hok
    have hk := total_header_length_ge _ hrem
    have hlen := publish_bytes_length
      (lwmqtt_header_t.byte
        { retain := if retained then 1 else 0, qos := qos, dup := if dup then 1 else 0,
          type := LWMQTT_PUBLISH_PACKET }) qos packet_id topic payload
    rw [← hm1, ← hl1, Int.toNat_ofNat, ← hlen, written_drop, written_length _ _ (by omega)]
    refine ⟨by omega, by omega, rfl, rfl⟩
  · intro hrem mem1 len1 hok
    rw [encode_connect_eq mem buf_len len options will hmem hrem] at hok
    by_cases hc : ((lwmqtt_total_header_length (lwmqtt_encode_connect_rem_len options will)
        + lwmqtt_encode_connect_rem_len options will : Nat) : Int) > buf_len
    · rw [if_pos hc] at hok
      simp at hok
    rw [if_neg hc] at hok
    simp only [Option.some.injEq, Prod.mk.injEq, true_and] at hok
    obtain ⟨hm1, hl1⟩ := hok
    have hk := total_header_length_ge _ hrem
    have hlen := connect_bytes_length options will
    rw [← hm1, ← hl1, Int.toNat_ofNat, ← hlen, written_drop, written_length _ _ (by omega)]
    refine ⟨by omega, by omega, rfl, rfl⟩

theorem total_header_length_covers_witness :
    (0 : Int) ≤ 12 ∧ (12 : Int) ≤ 16 ∧
      ([50, 10, 0, 3, 97, 47, 98, 0, 42, 1, 2, 3, 170, 170, 170, 170] : List Nat).length
        = (List.replicate 16 170).length ∧
      ([50, 10, 0, 3, 97, 47, 98, 0, 42, 1, 2, 3, 170, 170, 170, 170] : List Nat).drop
          (12 : Int).toNat
        = (List.replicate 16 170).drop (12 : Int).toNat :=
  (total_header_length_covers (List.replicate 16 170) 16 0 false 1 false 42
    (.c_string [97, 47, 98]) [1, 2, 3] connect_example_options none (by decide)).2.1
    (by decide) [50, 10, 0, 3, 97, 47, 98, 0, 42, 1, 2, 3, 170, 170, 170, 170] 12 (by decide)

/-! ## Requests beyond the representable remaining length -/

theorem remaining_length_bytes_5 (n : Nat) (h1 : 268435456 ≤ n) (h2 : n < 34359738368) :
    remaining_length_bytes n =
      [n % 128 + 128, n / 128 % 128 + 128, n / 16384 % 128 + 128, n / 2097152 % 128 + 128,
        n / 268435456] := by
  rw [remaining_length_bytes_eq, if_pos (by omega),
    remaining_length_bytes_4 _ (by omega) (by omega)]
  have e1 : n / 128 / 128 = n / 16384 := by omega
  have e2 : n / 128 / 16384 = n / 2097152 := by omega
  have e3 : n / 128 / 2097152 = n / 268435456 := by omega
  rw [e1, e2, e3]

/-- The returns of `lwmqtt_encode_publish`: BufferTooShort with nothing written when the
capacity check fails, and nothing but Success when it passes. -/
theorem encode_publish_returns (mem : List Nat) (buf_len len : Int) (dup : Bool) (qos : Nat)
    (retained : Bool) (packet_id : Nat) (topic : lwmqtt_string_t) (payload : List Nat)
    (e : lwmqtt_err_t) (mem1 : List Nat) (len1 : Int)
    (h : lwmqtt_encode_publish mem buf_len len dup qos retained packet_id topic payload
      = some (e, mem1, len1)) :
    (e = LWMQTT_BUFFER_TOO_SHORT_ERROR ∧ mem1 = mem ∧ len1 = len ∧
      ((lwmqtt_total_header_length (lwmqtt_encode_publish_rem_len qos topic payload)
        + lwmqtt_encode_publish_rem_len qos topic payload : Nat) : Int) > buf_len) ∨
    (e = LWMQTT_SUCCESS ∧
      ¬ ((lwmqtt_total_header_length (lwmqtt_encode_publish_rem_len qos topic payload)
        + lwmqtt_encode_publish_rem_len qos topic payload : Nat) : Int) > buf_len) := by
  revert h
  unfold lwmqtt_encode_publish
  simp only
  by_cases hc : ((lwmqtt_total_header_length (lwmqtt_encode_publish_rem_len qos topic payload)
      + lwmqtt_encode_publish_rem_len qos topic payload : Nat) : Int) > buf_len
  · rw [if_pos hc]
    intro h
    simp only [Option.some.injEq, Prod.mk.injEq] at h
    exact Or.inl ⟨h.1.symm, h.2.1.symm, h.2.2.symm, hc⟩
  · rw [if_neg hc]
    cases lwmqtt_write_char mem 0 _ with
    | none => intro h; cases h
    | some p1 =>
      obtain ⟨m1, q1⟩ := p1
      simp only
      cases lwmqtt_encode_remaining_length m1 q1 _ with
      | none => intro h; cases h
      | some p2 =>
        obtain ⟨m2, n2⟩ := p2
        simp only
        cases lwmqtt_write_string m2 (q1 + n2) topic with
        | none => intro h; cases h
        | some p3 =>
          obtain ⟨m3, q3⟩ := p3
          simp only
          generalize (if qos > 0 then lwmqtt_write_int m3 q3 (packet_id % 65536)
            else some (m3, q3)) = r4
          cases r4 with
          | none => intro h; cases h
          | some p4 =>
            obtain ⟨m4, q4⟩ := p4
            simp only
            cases memcpy m4 q4 payload with
            | none => intro h; cases h
            | some m5 =>
              intro h
              simp only [Option.some.injEq, Prod.mk.injEq] at h
              exact Or.inr ⟨h.1.symm, hc⟩

/-- The returns of `lwmqtt_encode_connect`: BufferTooShort with nothing written when the
capacity check fails, and nothing but Success when it passes. -/
theorem encode_connect_returns (mem : List Nat) (buf_len len : Int)
    (options : lwmqtt_options_t) (will : Option lwmqtt_will_t)
    (e : lwmqtt_err_t) (mem1 : List Nat) (len1 : Int)
    (h : lwmqtt_encode_connect mem buf_len len options will = some (e, mem1, len1)) :
    (e = LWMQTT_BUFFER_TOO_SHORT_ERROR ∧ mem1 = mem ∧ len1 = len ∧
      ((lwmqtt_total_header_length (lwmqtt_encode_connect_rem_len options will)
        + lwmqtt_encode_connect_rem_len options will : Nat) : Int) > buf_len) ∨
    (e = LWMQTT_SUCCESS ∧
      ¬ ((lwmqtt_total_header_length (lwmqtt_encode_connect_rem_len options will)
        + lwmqtt_encode_connect_rem_len options will : Nat) : Int) > buf_len) := by
  revert h
  unfold lwmqtt_encode_connect
  simp only
  by_cases hc : ((lwmqtt_total_header_length (lwmqtt_encode_connect_rem_len options will)
      + lwmqtt_encode_connect_rem_len options will : Nat) : Int) > buf_len
  · rw [if_pos hc]
    intro h
    simp only [Option.some.injEq, Prod.mk.injEq] at h
    exact Or.inl ⟨h.1.symm, h.2.1.symm, h.2.2.symm, hc⟩
  · rw [if_neg hc]
    cases lwmqtt_encode_connect_write mem (lwmqtt_encode_connect_rem_len options will)
        options will with
    | none => intro h; cases h
    | some p =>
      intro h
      simp only [Option.some.injEq, Prod.mk.injEq] at h
      exact Or.inr ⟨h.1.symm, hc⟩

/-- C16 (as amended): for a request whose computed remaining length exceeds 268435455
and on which the `int` sums of the source do not overflow
(`lwmqtt_total_header_length(rem_len) + rem_len` is at most 2147483647),
`lwmqtt_encode_publish` and `lwmqtt_encode_connect` do not return
RemainingLengthOverflow: each returns BufferTooShort, with the buffer and the output
length as they were, exactly when `lwmqtt_total_header_length(rem_len) + rem_len >
buf_len`.  Nothing is stated about what a call that passes that check writes. -/
theorem encode_overflow_not_reported (mem : List Nat) (buf_len len : Int) (dup : Bool)
    (qos : Nat) (retained : Bool) (packet_id : Nat) (topic : lwmqtt_string_t)
    (payload : List Nat) (options : lwmqtt_options_t) (will : Option lwmqtt_will_t) :
    (lwmqtt_encode_publish_rem_len qos topic payload > 268435455 →
      lwmqtt_total_header_length (lwmqtt_encode_publish_rem_len qos topic payload)
          + lwmqtt_encode_publish_rem_len qos topic payload ≤ 2147483647 →
      (((lwmqtt_total_header_length (lwmqtt_encode_publish_rem_len qos topic payload)
          + lwmqtt_encode_publish_rem_len qos topic payload : Nat) : Int) > buf_len →
        lwmqtt_encode_publish mem buf_len len dup qos retained packet_id topic payload
          = some (LWMQTT_BUFFER_TOO_SHORT_ERROR, mem, len)) ∧
      ∀ e mem1 len1, lwmqtt_encode_publish mem buf_len len dup qos retained packet_id topic
          payload = some (e, mem1, len1) →
        e ≠ LWMQTT_REMAINING_LENGTH_OVERFLOW ∧
        (e = LWMQTT_BUFFER_TOO_SHORT_ERROR →
          ((lwmqtt_total_header_length (lwmqtt_encode_publish_rem_len qos topic payload)
            + lwmqtt_encode_publish_rem_len qos topic payload : Nat) : Int) > buf_len
            ∧ mem1 = mem ∧ len1 = len)) ∧
    (lwmqtt_encode_connect_rem_len options will > 268435455 →
      lwmqtt_total_header_length (lwmqtt_encode_connect_rem_len options will)
          + lwmqtt_encode_connect_rem_len options will ≤ 2147483647 →
      (((lwmqtt_total_header_length (lwmqtt_encode_connect_rem_len options will)
          + lwmqtt_encode_connect_rem_len options will : Nat) : Int) > buf_len →
        lwmqtt_encode_connect mem buf_len len options will
          = some (LWMQTT_BUFFER_TOO_SHORT_ERROR, mem, len)) ∧
      ∀ e mem1 len1, lwmqtt_encode_connect mem buf_len len options will
          = some (e, mem1, len1) →
        e ≠ LWMQTT_REMAINING_LENGTH_OVERFLOW ∧
        (e = LWMQTT_BUFFER_TOO_SHORT_ERROR →
          ((lwmqtt_total_header_length (lwmqtt_encode_connect_rem_len options will)
            + lwmqtt_encode_connect_rem_len options will : Nat) : Int) > buf_len
            ∧ mem1 = mem ∧ len1 = len)) := by
  refine ⟨?_, ?_⟩
  · intro _ _
    constructor
    · intro hc
      unfold lwmqtt_encode_publish
      simp only
      rw [if_pos hc]
    · intro e mem1 len1 h
      rcases encode_publish_returns mem buf_len len dup qos retained packet_id topic payload
        e mem1 len1 h with ⟨he, hm, hl, hc⟩ | ⟨he, hc⟩
      · subst he
        exact ⟨by decide, fun _ => ⟨hc, hm, hl⟩⟩
      · subst he
        exact ⟨by decide, fun h => absurd h (by decide)⟩
  · intro _ _
    constructor
    · intro hc
      unfold lwmqtt_encode_connect
      simp only
      rw [if_pos hc]
    · intro e mem1 len1 h
      rcases encode_connect_returns mem buf_len len options will e mem1 len1 h with
        ⟨he, hm, hl, hc⟩ | ⟨he, hc⟩
      · subst he
        exact ⟨by decide, fun _ => ⟨hc, hm, hl⟩⟩
      · subst he
        exact ⟨by decide, fun h => absurd h (by decide)⟩

/-- What `lwmqtt_encode_publish` writes when the capacity check passes and the buffer
has room for the packet, whatever the remaining length. -/
theorem encode_publish_write (mem : List Nat) (buf_len len : Int) (dup : Bool) (qos : Nat)
    (retained : Bool) (packet_id : Nat) (topic : lwmqtt_string_t) (payload : List Nat)
    (hc : ¬ ((lwmqtt_total_header_length (lwmqtt_encode_publish_rem_len qos topic payload)
      + lwmqtt_encode_publish_rem_len qos topic payload : Nat) : Int) > buf_len)
    (hroom : 1 + (remaining_length_bytes (lwmqtt_encode_publish_rem_len qos topic payload)).length
      + lwmqtt_encode_publish_rem_len qos topic payload ≤ mem.length) :
    lwmqtt_encode_publish mem buf_len len dup qos retained packet_id topic payload =
      some (LWMQTT_SUCCESS,
        written mem
          ([lwmqtt_header_t.byte
              { retain := if retained then 1 else 0, qos := qos,
                dup := if dup then 1 else 0, type := LWMQTT_PUBLISH_PACKET }]
            ++ remaining_length_bytes (lwmqtt_encode_publish_rem_len qos topic payload)
            ++ [lwmqtt_strlen topic / 256 % 256, lwmqtt_strlen topic % 256]
            ++ topic.content
            ++ (if qos > 0 then [packet_id % 65536 / 256, packet_id % 256] else [])
            ++ payload),
        ((1 + (remaining_length_bytes (lwmqtt_encode_publish_rem_len qos topic payload)).length
          + lwmqtt_encode_publish_rem_len qos topic payload : Nat) : Int)) := by
  unfold lwmqtt_encode_publish
  simp only
  generalize hR : lwmqtt_encode_publish_rem_len qos topic payload = R at hc hroom ⊢
  rw [if_neg hc]
  have hRdef : R = 2 + lwmqtt_strlen topic + payload.length + (if qos > 0 then 2 else 0) := by
    rw [← hR]; unfold lwmqtt_encode_publish_rem_len
    split_ifs <;> rfl
  generalize hH : lwmqtt_header_t.byte
    { retain := if retained then 1 else 0, qos := qos,
      dup := if dup then 1 else 0, type := LWMQTT_PUBLISH_PACKET } = H
  have hHlt : H < 256 := by rw [← hH]; exact header_byte_lt _
  conv_lhs => rw [← written_nil mem]
  rw [write_char_written mem [] 0 H rfl (by omega)]
  simp only [List.nil_append, Nat.mod_eq_of_lt hHlt]
  rw [encode_remaining_length_written mem [H] (0 + 1) R rfl,
    if_pos (by simp only [List.length_singleton]; omega)]
  simp only
  rw [write_string_written mem _ _ topic
    (by simp only [List.length_append, List.length_cons, List.length_nil])
    (by split_ifs at hRdef <;> omega)]
  simp only
  by_cases hq : qos > 0
  · simp only [hq, if_true] at hRdef ⊢
    rw [write_int_written mem _ _ _
      (by simp only [List.length_append, List.length_cons, List.length_nil, lwmqtt_strlen]; omega)
      (by omega)]
    simp only
    rw [memcpy_written mem payload _ _
      (by simp only [List.length_append, List.length_cons, List.length_nil, lwmqtt_strlen]; omega)
      (by omega)]
    simp only [Option.some.injEq, Prod.mk.injEq, true_and]
    constructor
    · congr 1
      simp [Nat.mod_mod_of_dvd]
      omega
    · congr 1; omega
  · simp only [hq, if_false] at hRdef ⊢
    rw [memcpy_written mem payload _ _
      (by simp only [List.length_append, List.length_cons, List.length_nil, lwmqtt_strlen]; omega)
      (by omega)]
    simp only [Option.some.injEq, Prod.mk.injEq, true_and]
    constructor
    · congr 1
      simp
    · congr 1; omega

/-- The remaining length of a PUBLISH request with an empty topic, qos 0 and a payload
of 268435456 bytes. -/
theorem publish_rem_len_oversized :
    lwmqtt_encode_publish_rem_len 0 .null (List.replicate 268435456 0) = 268435458 := by
  unfold lwmqtt_encode_publish_rem_len
  rw [if_neg (by decide), List.length_replicate]
  rfl

/-- The counterexample to C16: a PUBLISH request with a payload of 268435456 bytes has the
remaining length 268435458, and every sum of the call is far inside the range of `int`;
into a buffer of 268435464 cells declared with the capacity 268435463,
`lwmqtt_encode_publish` returns Success, not RemainingLengthOverflow, with the written
length 268435464; and `lwmqtt_encode_remaining_length` writes 5 bytes for 268435456. -/
theorem encode_overflow_counterexample :
    lwmqtt_encode_publish_rem_len 0 .null (List.replicate 268435456 0) > 268435455 ∧
    (∃ mem1, lwmqtt_encode_publish (List.replicate 268435464 0) 268435463 0 false 0 false 0
      .null (List.replicate 268435456 0) = some (LWMQTT_SUCCESS, mem1, 268435464)) ∧
    lwmqtt_encode_remaining_length [0, 0, 0, 0, 0] 0 268435456
      = some ([128, 128, 128, 128, 1], 5) := by
  have hR := publish_rem_len_oversized
  have h5 : (remaining_length_bytes 268435458).length = 5 := by
    rw [remaining_length_bytes_5 268435458 (by omega) (by omega)]
    rfl
  refine ⟨by rw [hR]; decide, ?_, by decide⟩
  have hc : ¬ ((lwmqtt_total_header_length
      (lwmqtt_encode_publish_rem_len 0 .null (List.replicate 268435456 0))
      + lwmqtt_encode_publish_rem_len 0 .null (List.replicate 268435456 0) : Nat) : Int)
      > 268435463 := by
    rw [hR]
    decide
  have hroom : 1 + (remaining_length_bytes
      (lwmqtt_encode_publish_rem_len 0 .null (List.replicate 268435456 0))).length
      + lwmqtt_encode_publish_rem_len 0 .null (List.replicate 268435456 0)
      ≤ (List.replicate 268435464 0).length := by
    rw [hR, h5, List.length_replicate]
  have h := encode_publish_write (List.replicate 268435464 0) 268435463 0 false 0 false 0
    .null (List.replicate 268435456 0) hc hroom
  rw [hR, h5] at h
  exact ⟨_, h⟩

/-- The remaining length of the example CONNECT request with a will. -/
theorem connect_rem_len_example_will (w : lwmqtt_will_t) :
    lwmqtt_encode_connect_rem_len connect_example_options (some w)
      = 15 + (lwmqtt_strlen w.topic + 2 + w.payload.length + 2) :=
  rfl

/-- The remaining length of the example CONNECT request with a will payload of 268435456
bytes. -/
theorem connect_rem_len_oversized :
    lwmqtt_encode_connect_rem_len connect_example_options (some connect_example_oversized_will)
      = 268435475 := by
  have hp : connect_example_oversized_will.payload.length = 268435456 :=
    List.length_replicate 268435456 0
  rw [connect_rem_len_example_will, hp]
  rfl

/-- A PUBLISH request with a payload of 268435456 bytes and a CONNECT request with a will
payload of 268435456 bytes, each into an empty buffer of capacity 0: the remaining
lengths 268435458 and 268435475 exceed 268435455, the capacity sums stay far below
2147483647, and both calls return BufferTooShort with nothing written. -/
theorem encode_overflow_not_reported_witness :
    lwmqtt_encode_publish [] 0 0 false 0 false 0 .null (List.replicate 268435456 0)
      = some (LWMQTT_BUFFER_TOO_SHORT_ERROR, [], 0) ∧
    lwmqtt_encode_connect [] 0 0 connect_example_options (some connect_example_oversized_will)
      = some (LWMQTT_BUFFER_TOO_SHORT_ERROR, [], 0) :=
  ⟨((encode_overflow_not_reported [] 0 0 false 0 false 0 .null (List.replicate 268435456 0)
      connect_example_options (some connect_example_oversized_will)).1
    (by rw [publish_rem_len_oversized]; decide)
    (by rw [publish_rem_len_oversized]; decide)).1
    (by rw [publish_rem_len_oversized]; decide),
  ((encode_overflow_not_reported [] 0 0 false 0 false 0 .null (List.replicate 268435456 0)
      connect_example_options (some connect_example_oversized_will)).2
    (by rw [connect_rem_len_oversized]; decide)
    (by rw [connect_rem_len_oversized]; decide)).1
    (by rw [connect_rem_len_oversized]; decide)⟩

end Lwmqtt
